import Mathlib

/-!
# github-audit-log-to-s3: the checkpointed export cycle

A shallow embedding of `function/handler/main.go`.

* The Go standard library's `time` package is modelled for locations with one
  fixed UTC offset: an instant is a number of nanoseconds since the Unix epoch,
  the proleptic Gregorian calendar is computed arithmetically, and the three
  renderings the program uses (`Format("2006-01-02")`, `Format(time.RFC3339)`
  and `String()`) are written out character by character.
* GitHub, S3, DynamoDB, the environment and the remaining library calls are
  fields of `Services`; every service call is appended to a trace, and each
  service sees the trace so far, so a stub may answer by call count.
* `log.Fatal`/`log.Fatalf` end the process: a run that reaches one stops with
  `Res.fatal` and the trace of the calls issued up to that point. Log output
  itself is not part of the model.
-/

namespace AuditLog

/-! ## The `time` package -/

/-- A `time.Location` with a single fixed offset: zone abbreviation and the
offset in seconds east of UTC. -/
structure Location where
  name : String
  offset : Int
  deriving DecidableEq, Repr

/-- The location `time.UTC`. -/
def UTC : Location := ⟨"UTC", 0⟩

/-- A `time.Time`: the wall-clock instant in nanoseconds since the Unix epoch,
the monotonic clock reading (present on values obtained from `time.Now`), and
the location used for display. -/
structure Time where
  wall : Int
  mono : Option Int
  loc : Location
  deriving DecidableEq, Repr

/-- The constant `time.Hour`, a duration in nanoseconds. -/
def Hour : Int := 3600 * 1000000000

/-- The method `Time.Add`: both clock readings are shifted by the duration. -/
def Time.Add (t : Time) (d : Int) : Time :=
  { t with wall := t.wall + d, mono := t.mono.map (· + d) }

/-- Seconds since the Unix epoch, rounded down. -/
def Time.Unix (t : Time) : Int := t.wall / 1000000000

/-- The method `Time.Nanosecond`: the nanosecond offset within the second. -/
def Time.Nanosecond (t : Time) : Int := t.wall % 1000000000

/-- Seconds since the epoch on the local clock of the time's location. -/
def Time.localSec (t : Time) : Int := t.Unix + t.loc.offset

/-- Year of the era (0..399) of a day of the era (0..146096). -/
def yearOfEra (doe : Int) : Int :=
  (doe - doe / 1460 + doe / 36524 - doe / 146096) / 365

/-- Day of the year counted from 1 March (0..365) of a day of the era. -/
def dayOfYear (doe : Int) : Int :=
  doe - (365 * yearOfEra doe + yearOfEra doe / 4 - yearOfEra doe / 100)

/-- Month counted from March (0..11) of a day of the March-based year. -/
def monthFromMarch (doy : Int) : Int := (5 * doy + 2) / 153

/-- Proleptic Gregorian date (year, month, day) of a day number counted from
1970-01-01, as `Time.Date` computes it. -/
def civilFromDays (z : Int) : Int × Int × Int :=
  let era := (z + 719468) / 146097
  let doe := (z + 719468) % 146097
  let yoe := yearOfEra doe
  let doy := dayOfYear doe
  let mp := monthFromMarch doy
  let d := doy - (153 * mp + 2) / 5 + 1
  let m := if mp < 10 then mp + 3 else mp - 9
  (if m ≤ 2 then yoe + era * 400 + 1 else yoe + era * 400, m, d)

/-- Day number counted from 1970-01-01 of a proleptic Gregorian date. -/
def daysFromCivil (y m d : Int) : Int :=
  let y1 := if m ≤ 2 then y - 1 else y
  let era := y1 / 400
  let yoe := y1 % 400
  let doy := (153 * (if m > 2 then m - 3 else m + 9) + 2) / 5 + d - 1
  era * 146097 + (yoe * 365 + yoe / 4 - yoe / 100 + doy) - 719468

/-- The method `Time.Year`. -/
def Time.Year (t : Time) : Int := (civilFromDays (t.localSec / 86400)).1

/-- The method `Time.Month`, as the integer 1..12. -/
def Time.Month (t : Time) : Int := (civilFromDays (t.localSec / 86400)).2.1

/-- The method `Time.Day`. -/
def Time.Day (t : Time) : Int := (civilFromDays (t.localSec / 86400)).2.2

/-- The method `Time.Hour`. -/
def Time.Hour (t : Time) : Int := t.localSec % 86400 / 3600

/-- The method `Time.Minute`. -/
def Time.Minute (t : Time) : Int := t.localSec % 3600 / 60

/-- The method `Time.Second`. -/
def Time.Second (t : Time) : Int := t.localSec % 60

/-- The character of a decimal digit. -/
def digitChar (d : Nat) : Char := Char.ofNat (48 + d % 10)

/-- Decimal digits of a natural number, most significant first; the first
argument bounds the number of digits produced. -/
def decimalFuel : Nat → Nat → List Char
  | 0, _ => []
  | f + 1, u => if u < 10 then [digitChar u] else decimalFuel f (u / 10) ++ [digitChar u]

/-- Decimal digits of a natural number. -/
def decimal (u : Nat) : List Char := decimalFuel (u + 1) u

/-- The helper `appendInt` of package `time` (and the verb `%d`, with width 0):
sign, zero padding up to the width, decimal digits. -/
def appendInt (x : Int) (width : Nat) : List Char :=
  let ds := decimal x.natAbs
  (if x < 0 then ['-'] else []) ++ List.replicate (width - ds.length) '0' ++ ds

/-- Removes the zeros at the end of a digit string. -/
def trimZeros (ds : List Char) : List Char :=
  (ds.reverse.dropWhile (· == '0')).reverse

/-- Layout element `.999999999`: fractional seconds without trailing zeros,
nothing at all when the fraction is zero. -/
def formatNano (nanosec : Int) : List Char :=
  let ds := trimZeros (appendInt nanosec 9)
  if ds.isEmpty then [] else '.' :: ds

/-- Layout elements `-0700` (colon false) and `-07:00` (colon true). -/
def formatNumTZ (offset : Int) (colon : Bool) : List Char :=
  let zone : Nat := offset.natAbs / 60
  (if offset < 0 ∧ zone ≠ 0 then ['-'] else ['+']) ++ appendInt (zone / 60 : Nat) 2
    ++ (if colon then [':'] else []) ++ appendInt (zone % 60 : Nat) 2

/-- Layout element `Z07:00`. -/
def formatISO8601ColonTZ (offset : Int) : List Char :=
  if offset = 0 then ['Z'] else formatNumTZ offset true

/-- Layout element `MST`: the zone abbreviation, or the numeric offset in the
form `-0700` when the location has none. -/
def formatTZ (loc : Location) : List Char :=
  if loc.name ≠ "" then loc.name.data
  else
    let zone : Nat := loc.offset.natAbs / 60
    (if loc.offset < 0 ∧ zone ≠ 0 then ['-'] else ['+']) ++ appendInt (zone / 60 : Nat) 2
      ++ appendInt (zone % 60 : Nat) 2

/-- Layout `2006-01-02`. -/
def formatDate (t : Time) : List Char :=
  appendInt t.Year 4 ++ ['-'] ++ appendInt t.Month 2 ++ ['-'] ++ appendInt t.Day 2

/-- Layout `15:04:05`. -/
def formatClock (t : Time) : List Char :=
  appendInt t.Hour 2 ++ [':'] ++ appendInt t.Minute 2 ++ [':'] ++ appendInt t.Second 2

/-- The call `t.Format(time.RFC3339)`, layout `2006-01-02T15:04:05Z07:00`, as
characters. -/
def rfc3339Chars (t : Time) : List Char :=
  formatDate t ++ ['T'] ++ formatClock t ++ formatISO8601ColonTZ t.loc.offset

/-- The call `t.Format(time.RFC3339)`. -/
def Time.FormatRFC3339 (t : Time) : String := String.mk (rfc3339Chars t)

/-- The constant `EventDateFormat` applied: `t.Format("2006-01-02")`. -/
def Time.FormatEventDate (t : Time) : String := String.mk (formatDate t)

/-- The monotonic clock suffix ` m=±ddd.nnnnnnnnn` of `Time.String`. -/
def formatMono (ext : Int) : List Char :=
  let m2 : Nat := ext.natAbs
  let m1 := m2 / 1000000000
  let m0 := m1 / 1000000000
  " m=".data ++ [if ext < 0 then '-' else '+']
    ++ (if m0 ≠ 0 then appendInt (m0 : Nat) 0 ++ appendInt (m1 % 1000000000 : Nat) 9
        else appendInt (m1 % 1000000000 : Nat) 0)
    ++ ['.'] ++ appendInt (m2 % 1000000000 : Nat) 9

/-- The method `Time.String` (what the verb `%s` prints): layout
`2006-01-02 15:04:05.999999999 -0700 MST`, then the monotonic reading if the
value has one. -/
def Time.String (t : Time) : String :=
  String.mk (formatDate t ++ [' '] ++ formatClock t ++ formatNano t.Nanosecond ++ [' ']
    ++ formatNumTZ t.loc.offset false ++ [' '] ++ formatTZ t.loc
    ++ (match t.mono with
        | some ext => formatMono ext
        | none => []))

/-! ## Data model -/

/-- One byte. -/
abbrev Byte := Fin 256

/-- A byte slice. -/
abbrev Bytes := List Byte

/-- The struct `bookmark`. -/
structure bookmark where
  EventDate : String
  CreatedAt : String
  From : Time
  To : Time
  deriving DecidableEq, Repr

/-- The fields of `github.GetAuditLogOptions` that the program sets. -/
structure GetAuditLogOptions where
  Phrase : String
  Include : String
  Order : String
  PerPage : Int
  After : String
  deriving DecidableEq, Repr

/-- The struct `s3.PutObjectInput` as the program fills it. -/
structure PutObjectInput where
  Bucket : String
  Key : String
  Body : Bytes
  deriving DecidableEq, Repr

/-- The struct `dynamodb.QueryInput` as the program fills it; `EventDate` is the
value bound to `:EventDate`. -/
structure QueryInput where
  TableName : String
  ScanIndexForward : Bool
  Limit : Int
  KeyConditionExpression : String
  EventDate : String
  deriving DecidableEq, Repr

/-- A DynamoDB item, identified with what `attributevalue.UnmarshalMap` makes
of it. -/
structure Item where
  decoded : Except String bookmark

/-- A call to an external service. `putItem table b` is a `PutItem` whose item
is `attributevalue.MarshalMap b`. -/
inductive Event where
  | getAuditLog (org : String) (opts : GetAuditLogOptions)
  | upload (input : PutObjectInput)
  | query (input : QueryInput)
  | putItem (table : String) (item : bookmark)
  deriving DecidableEq, Repr

/-- The environment of the process: environment variables, the clock, the
library calls that are not modelled above, and the three remote services. A
remote service is given the calls issued before the current one. The `E` is
the type of `*github.AuditEntry`. -/
structure Services (E : Type) where
  getenv : String → String
  systemLocal : Location
  now : Nat → Int × Int
  loadDefaultConfig : Option String
  loadLocation : String → Except String Location
  atoi : String → Except String Int
  getAuditLog : List Event → String → GetAuditLogOptions → Except String (List E × String)
  jsonMarshal : E → Except String Bytes
  gzip : Bytes → Bytes
  upload : List Event → PutObjectInput → Except String String
  query : List Event → QueryInput → Except String (List Item)
  marshalMap : bookmark → Option String
  putItem : List Event → String → bookmark → Option String

/-- The package-level variables, the calls issued so far and the number of
clock readings taken. `clients` says that `dynamodbSvc`, `s3Uploader` and
`githubClient` are assigned; `bm = none` is the nil pointer. -/
structure State where
  githubToken : String
  githubOrg : String
  bucketName : String
  bucketPrefix : String
  bookmarkTable : String
  timeLocal : Location
  clients : Bool
  bm : Option bookmark
  trace : List Event
  clock : Nat
  deriving DecidableEq, Repr

/-- How a run ends: normally, in `log.Fatal` (the process exits), in a nil
pointer dereference, or with the pagination loop still running when the
iteration budget is used up. -/
inductive Res (α : Type) where
  | ok (a : α) (s : State)
  | fatal (s : State)
  | panic (s : State)
  | outOfFuel (s : State)

/-- The state in which a run ends. -/
def Res.state {α : Type} : Res α → State
  | .ok _ s => s
  | .fatal s => s
  | .panic s => s
  | .outOfFuel s => s

/-- A computation over the process state. -/
def M (α : Type) : Type := State → Res α

/-- Runs a computation from a state. -/
def M.run {α : Type} (m : M α) (s : State) : Res α := m s

/-- Sequencing: the second computation runs only if the first ends normally. -/
def M.bind {α β : Type} (m : M α) (f : α → M β) : M β := fun s =>
  match m s with
  | .ok a s1 => f a s1
  | .fatal s1 => .fatal s1
  | .panic s1 => .panic s1
  | .outOfFuel s1 => .outOfFuel s1

instance : Monad M where
  pure a := fun s => .ok a s
  bind := M.bind

/-- The current state. -/
def getState : M State := fun s => .ok s s

/-- Replaces the state. -/
def modifyState (f : State → State) : M Unit := fun s => .ok () (f s)

/-- The calls `log.Fatal` and `log.Fatalf`. -/
def logFatal {α : Type} : M α := fun s => .fatal s

/-- A nil pointer dereference. -/
def nilPanic {α : Type} : M α := fun s => .panic s

/-- The pagination loop has not ended within the iteration budget. -/
def stillRunning {α : Type} : M α := fun s => .outOfFuel s

/-- Records a service call in the trace. -/
def emit (e : Event) : M Unit := modifyState fun s => { s with trace := s.trace ++ [e] }

/-- Dereferences the global `bm`. -/
def derefBm : M bookmark := fun s =>
  match s.bm with
  | some b => .ok b s
  | none => .panic s

/-- Fails with a nil pointer dereference unless the service clients are
assigned. -/
def needClients : M Unit := fun s => if s.clients then .ok () s else .panic s

/-! ## The program -/

section Program

variable {E : Type} (S : Services E)

/-- The package-level variable initialisers. -/
def initialState : State where
  githubToken := S.getenv "GITHUB_TOKEN"
  githubOrg := S.getenv "GITHUB_ORG"
  bucketName := S.getenv "BUCKET_NAME"
  bucketPrefix := S.getenv "FOLDER_PREFIX"
  bookmarkTable := S.getenv "BOOKMARK_TABLE"
  timeLocal := S.systemLocal
  clients := false
  bm := none
  trace := []
  clock := 0

/-- The call `time.Now()`: the next clock reading, in `time.Local`. -/
def timeNow : M Time := fun s =>
  .ok ⟨(S.now s.clock).1, some (S.now s.clock).2, s.timeLocal⟩ { s with clock := s.clock + 1 }

/-- The function `newBookmark`. -/
def newBookmark (frm till : Time) : M bookmark := do
  let t1 ← timeNow S
  let t2 ← timeNow S
  pure { EventDate := t1.FormatEventDate, CreatedAt := t2.FormatRFC3339, From := frm, To := till }

/-- The function `getSearchPhrase`. -/
def getSearchPhrase : M String := do
  let bm ← derefBm
  let phrase := "created:" ++ bm.From.String ++ ".." ++ bm.To.String
  let optionPhrase := S.getenv "AUDIT_LOG_OPTION_PRHASE"
  if optionPhrase ≠ "" then pure (phrase ++ " " ++ optionPhrase) else pure phrase

/-- The function `getAuditLogOptions`. -/
def getAuditLogOptions : M GetAuditLogOptions := do
  let optionInclude := S.getenv "AUDIT_LOG_OPTION_INCLUDE"
  let optionInclude := if optionInclude = "" then "web" else optionInclude
  let optionOrder := S.getenv "AUDIT_LOG_OPTION_ORDER"
  let optionOrder := if optionOrder = "" then "desc" else optionOrder
  let optionPerPage := S.getenv "AUDIT_LOG_OPTION_PER_PAGE"
  let perPage : Int :=
    if optionPerPage ≠ "" then
      match S.atoi optionPerPage with
      | .error _ => 30
      | .ok value => value
    else 30
  let optionPhrase ← getSearchPhrase S
  pure { Include := optionInclude, Phrase := optionPhrase, Order := optionOrder,
         PerPage := perPage, After := "" }

/-- The function `doGetAuditEntries`: one request; an error is fatal. -/
def doGetAuditEntries (getOpts : GetAuditLogOptions) : M (List E × String) := do
  needClients
  let s ← getState
  emit (.getAuditLog s.githubOrg getOpts)
  match S.getAuditLog s.trace s.githubOrg getOpts with
  | .error _ => logFatal
  | .ok r => pure r

/-- The loop `for response.After != ""` of `getAuditEntries`; the first
argument bounds the number of iterations. -/
def getAuditEntriesLoop : Nat → GetAuditLogOptions → List E → String → M (List E)
  | fuel, getOpts, auditEntries, after =>
    if after = "" then pure auditEntries
    else
      match fuel with
      | 0 => stillRunning
      | fuel + 1 => do
        let getOpts := { getOpts with After := after }
        let (ae, after) ← doGetAuditEntries S getOpts
        getAuditEntriesLoop fuel getOpts (auditEntries ++ ae) after

/-- The function `getAuditEntries`. -/
def getAuditEntries (fuel : Nat) : M (List E) := do
  let getOpts ← getAuditLogOptions S
  let (auditEntries, after) ← doGetAuditEntries S getOpts
  getAuditEntriesLoop S fuel getOpts auditEntries after

/-- The loop over the records in `compressAndUploadToS3`: each record is
marshalled and written to the buffer, followed by a newline. -/
def writeRecords : List E → Bytes → M Bytes
  | [], buffer => pure buffer
  | record :: rest, buffer =>
    match S.jsonMarshal record with
    | .error _ => logFatal
    | .ok body => writeRecords rest (buffer ++ body ++ [10])

/-- The function `compress`. -/
def compress (s : Bytes) : Bytes := S.gzip s

/-- The object key built in `compressAndUploadToS3`, as characters. -/
def objectKeyChars (bucketPrefix : String) (now : Time) : List Char :=
  bucketPrefix.data ++ ['/'] ++ appendInt now.Year 0 ++ ['/'] ++ appendInt now.Month 0 ++ ['/']
    ++ appendInt now.Day 0 ++ ['/'] ++ appendInt now.Hour 0 ++ ['/'] ++ rfc3339Chars now
    ++ ".json.gz".data

/-- The object key built in `compressAndUploadToS3`:
`Sprintf("%s/%d/%d/%d/%d/%s.json.gz", ...)`. -/
def objectKey (bucketPrefix : String) (now : Time) : String :=
  String.mk (objectKeyChars bucketPrefix now)

/-- The function `compressAndUploadToS3`. -/
def compressAndUploadToS3 (logs : List E) : M Unit := do
  if logs.length < 1 then pure ()
  else do
    let buffer ← writeRecords S logs []
    let now ← timeNow S
    let s ← getState
    let key := objectKey s.bucketPrefix now
    let input : PutObjectInput := { Bucket := s.bucketName, Key := key, Body := compress S buffer }
    needClients
    emit (.upload input)
    match S.upload s.trace input with
    | .error _ => logFatal
    | .ok _ => pure ()

/-- The function `getBookmark`. -/
def getBookmark : M (Except String bookmark) := do
  let t ← timeNow S
  let formattedEventDate := t.FormatEventDate
  let s ← getState
  let queryInput : QueryInput :=
    { TableName := s.bookmarkTable, ScanIndexForward := false, Limit := 1,
      KeyConditionExpression := "EventDate = :EventDate", EventDate := formattedEventDate }
  needClients
  emit (.query queryInput)
  match S.query s.trace queryInput with
  | .error err => pure (.error err)
  | .ok items =>
    match items with
    | [] => pure (.error ("no bookmark found for given date: " ++ formattedEventDate))
    | item :: _ =>
      match item.decoded with
      | .error err => pure (.error ("error on unmarshaling: " ++ err ++ "\n"))
      | .ok book => pure (.ok book)

/-- The function `addBookmark`; the result is the error, if any. -/
def addBookmark (b : bookmark) : M (Option String) := do
  match S.marshalMap b with
  | some err => pure (some err)
  | none => do
    needClients
    let s ← getState
    emit (.putItem s.bookmarkTable b)
    pure (S.putItem s.trace s.bookmarkTable b)

/-- The function `init`. -/
def init : M Unit := do
  match S.loadDefaultConfig with
  | some _ => pure ()
  | none => do
    let timeZone := S.getenv "TIME_ZONE"
    (if timeZone ≠ "" then
      match S.loadLocation timeZone with
      | .error _ => logFatal
      | .ok loc => modifyState fun s => { s with timeLocal := loc }
    else pure ())
    modifyState fun s => { s with clients := true }
    let r ← getBookmark S
    match r with
    | .ok b => modifyState fun s => { s with bm := some b }
    | .error _ => do
      let now ← timeNow S
      let b ← newBookmark S now (now.Add (1 * Hour))
      modifyState fun s => { s with bm := some b }

/-- The function `Handler`; the argument bounds the iterations of the
pagination loop. -/
def Handler (fuel : Nat) : M Unit := do
  let s ← getState
  (if s.githubToken = "" ∨ s.githubOrg = "" ∨ s.bucketName = "" ∨ s.bookmarkTable = "" then
    logFatal
  else pure ())
  (if s.bucketPrefix = "" then modifyState fun s => { s with bucketPrefix := "Github/Audit" }
  else pure ())
  let auditEntries ← getAuditEntries S fuel
  compressAndUploadToS3 S auditEntries
  let bm ← derefBm
  let next ← newBookmark S bm.To (bm.To.Add (1 * Hour))
  let _err ← addBookmark S next
  pure ()

end Program

/-! ## Observations on runs -/

section Obs
variable {E : Type} (S : Services E)

/-- Lines 88 to 96 of `Handler`: the configuration check, the default prefix
and the fetch. -/
def handlerFetch (fuel : Nat) : M (List E) := do
  let s ← getState
  (if s.githubToken = "" ∨ s.githubOrg = "" ∨ s.bucketName = "" ∨ s.bookmarkTable = "" then
    logFatal
  else pure ())
  (if s.bucketPrefix = "" then modifyState fun s => { s with bucketPrefix := "Github/Audit" }
  else pure ())
  getAuditEntries S fuel

/-- Lines 99 to 103 of `Handler`: the next bookmark is built and stored. -/
def handlerCommit : M Unit := do
  let bm ← derefBm
  let next ← newBookmark S bm.To (bm.To.Add (1 * Hour))
  let _err ← addBookmark S next
  pure ()

/-- Number of audit-log requests in a trace. -/
def requestCount : List Event → Nat
  | [] => 0
  | .getAuditLog _ _ :: tr => requestCount tr + 1
  | _ :: tr => requestCount tr

/-- The source answers the request number `n + i` (counted over the whole
trace, from zero) with the `i`-th page of the list, whatever the request. -/
def Answers (n : Nat) (pages : List (List E × String)) : Prop :=
  ∀ (i : Nat) (h : i < pages.length) (tr : List Event) (org : String) (o : GetAuditLogOptions),
    requestCount tr = n + i → S.getAuditLog tr org o = .ok (pages.get ⟨i, h⟩)

/-- The cursors sent while a list of pages is received, the first request
carrying the given one. -/
def cursorsSent {α : Type} (after : String) : List (α × String) → List String
  | [] => []
  | p :: ps => after :: cursorsSent p.2 ps

/-- The cursor in hand after a list of pages is received. -/
def lastCursor {α : Type} (after : String) : List (α × String) → String
  | [] => after
  | p :: ps => lastCursor p.2 ps

/-- The state after requests with the given cursors are recorded. -/
def sendAll (s : State) (o : GetAuditLogOptions) (afters : List String) : State :=
  { s with trace := s.trace ++ afters.map fun a => .getAuditLog s.githubOrg { o with After := a } }

/-- The query phrase for the window of a bookmark. -/
def windowPhrase (b : bookmark) : String :=
  let phrase := "created:" ++ b.From.String ++ ".." ++ b.To.String
  if S.getenv "AUDIT_LOG_OPTION_PRHASE" ≠ "" then phrase ++ " " ++ S.getenv "AUDIT_LOG_OPTION_PRHASE"
  else phrase

/-- The options `getAuditLogOptions` builds for a bookmark. -/
def optionsFor (b : bookmark) : GetAuditLogOptions :=
  { Include := if S.getenv "AUDIT_LOG_OPTION_INCLUDE" = "" then "web"
      else S.getenv "AUDIT_LOG_OPTION_INCLUDE",
    Phrase := windowPhrase S b,
    Order := if S.getenv "AUDIT_LOG_OPTION_ORDER" = "" then "desc"
      else S.getenv "AUDIT_LOG_OPTION_ORDER",
    PerPage :=
      if S.getenv "AUDIT_LOG_OPTION_PER_PAGE" ≠ "" then
        match S.atoi (S.getenv "AUDIT_LOG_OPTION_PER_PAGE") with
        | .error _ => 30
        | .ok value => value
      else 30,
    After := "" }

/-- The state after one more request is recorded. -/
def State.request (s : State) (o : GetAuditLogOptions) : State :=
  { s with trace := s.trace ++ [.getAuditLog s.githubOrg o] }

/-- The second state is the first one with some requests carrying the given
phrase added to the trace. -/
def Requests (phrase : String) (s s' : State) : Prop :=
  ∃ reqs : List GetAuditLogOptions,
    s' = { s with trace := s.trace ++ reqs.map (Event.getAuditLog s.githubOrg) } ∧
    ∀ o ∈ reqs, o.Phrase = phrase

/-- The configuration check at the start of `Handler` fails. -/
def State.configMissing (s : State) : Prop :=
  s.githubToken = "" ∨ s.githubOrg = "" ∨ s.bucketName = "" ∨ s.bookmarkTable = ""

instance (s : State) : Decidable s.configMissing := by
  unfold State.configMissing; infer_instance

/-- The state after `Handler` has put the default in an empty `bucketPrefix`. -/
def State.withDefaultPrefix (s : State) : State :=
  if s.bucketPrefix = "" then { s with bucketPrefix := "Github/Audit" } else s

/-- The clock reading number `k`, as `time.Now` returns it in a state. -/
def clockTime (s : State) (k : Nat) : Time :=
  ⟨(S.now k).1, some (S.now k).2, s.timeLocal⟩

/-- The upload request `compressAndUploadToS3` builds in a state for a buffer. -/
def uploadInput (s : State) (buffer : Bytes) : PutObjectInput :=
  { Bucket := s.bucketName, Key := objectKey s.bucketPrefix (clockTime S s s.clock),
    Body := compress S buffer }

/-- The state after `compressAndUploadToS3` has issued its upload. -/
def uploaded (s : State) (buffer : Bytes) : State :=
  { s with clock := s.clock + 1, trace := s.trace ++ [.upload (uploadInput S s buffer)] }

/-- The bookmark `Handler` builds in a state whose bookmark is `b`. -/
def nextBookmark (s : State) (b : bookmark) : bookmark :=
  { EventDate := (clockTime S s s.clock).FormatEventDate,
    CreatedAt := (clockTime S s (s.clock + 1)).FormatRFC3339,
    From := b.To, To := b.To.Add (1 * Hour) }

/-- The upload requests in a trace, in order. -/
def uploads : List Event → List PutObjectInput
  | [] => []
  | .upload input :: tr => input :: uploads tr
  | _ :: tr => uploads tr

/-- The bookmarks put into the table in a trace, in order. -/
def puts : List Event → List bookmark
  | [] => []
  | .putItem _ b :: tr => b :: puts tr
  | _ :: tr => puts tr

/-- The audit-log requests in a trace, in order. -/
def requests : List Event → List GetAuditLogOptions
  | [] => []
  | .getAuditLog _ o :: tr => o :: requests tr
  | _ :: tr => requests tr

/-- The newline-terminated records of a byte stream, read front to back; the
second argument is the record being read. Bytes after the last newline count
as a record only if there are any. -/
def recordsFrom : Bytes → Bytes → List Bytes
  | [], cur => if cur = [] then [] else [cur]
  | b :: rest, cur => if b = 10 then cur :: recordsFrom rest [] else recordsFrom rest (cur ++ [b])

/-- The newline-terminated records of a byte stream. -/
def records (bs : Bytes) : List Bytes := recordsFrom bs []

/-- The value of `time.Local` once `init` is past the `TIME_ZONE` setting. -/
def initLocal (s0 : State) : Location :=
  if S.getenv "TIME_ZONE" ≠ "" then
    match S.loadLocation (S.getenv "TIME_ZONE") with
    | .ok loc => loc
    | .error _ => s0.timeLocal
  else s0.timeLocal

/-- The `TIME_ZONE` setting is absent or names a location that loads. -/
def timeZoneOk : Prop :=
  S.getenv "TIME_ZONE" = "" ∨ ∃ loc, S.loadLocation (S.getenv "TIME_ZONE") = .ok loc

/-- The query `getBookmark` sends when `init` starts in the given state. -/
def initQuery (s0 : State) : QueryInput :=
  { TableName := s0.bookmarkTable, ScanIndexForward := false, Limit := 1,
    KeyConditionExpression := "EventDate = :EventDate",
    EventDate := Time.FormatEventDate
      ⟨(S.now s0.clock).1, some (S.now s0.clock).2, initLocal S s0⟩ }

/-- The time `init` reads into `now` when `getBookmark` has returned an error:
the second clock reading of the process. -/
def startupTime (s0 : State) : Time :=
  ⟨(S.now (s0.clock + 1)).1, some (S.now (s0.clock + 1)).2, initLocal S s0⟩

/-- The bookmark `init` builds when `getBookmark` has returned an error. -/
def coldBookmark (s0 : State) : bookmark :=
  { EventDate := Time.FormatEventDate
      ⟨(S.now (s0.clock + 2)).1, some (S.now (s0.clock + 2)).2, initLocal S s0⟩,
    CreatedAt := Time.FormatRFC3339
      ⟨(S.now (s0.clock + 3)).1, some (S.now (s0.clock + 3)).2, initLocal S s0⟩,
    From := startupTime S s0, To := (startupTime S s0).Add (1 * Hour) }

/-- The number a string of decimal digits stands for. -/
def digitsValue (cs : List Char) : Nat := cs.foldl (fun a c => 10 * a + (c.toNat - 48)) 0

/-- The zero-padded digits of `appendInt`, without the sign. -/
def padded (u width : Nat) : List Char :=
  List.replicate (width - (decimal u).length) '0' ++ decimal u


/-- Environment with the four required variables set and nothing else. -/
def demoEnv : String → String
  | "GITHUB_TOKEN" => "token"
  | "GITHUB_ORG" => "acme"
  | "BUCKET_NAME" => "audit-bucket"
  | "BOOKMARK_TABLE" => "bookmarks"
  | _ => ""

/-- The instant 2022-03-01 10:00:00 UTC in nanoseconds since the epoch. -/
def tenOClock : Int := 1646128800 * 1000000000

/-- A checkpoint for the window from 10:00 to 11:00 on 2022-03-01 (UTC), as
read back from the table. -/
def demoCheckpoint : bookmark :=
  { EventDate := "2022-03-01", CreatedAt := "2022-03-01T09:00:05Z",
    From := ⟨tenOClock, none, UTC⟩, To := ⟨tenOClock + Hour, none, UTC⟩ }

/-- Services over string records: the clock starts at 11:30:00 UTC and advances
a second per reading, the source answers by cursor (two pages: A, B and then
C), the table holds `demoCheckpoint`, and nothing fails. -/
def demo : Services String where
  getenv := demoEnv
  systemLocal := UTC
  now := fun k => (tenOClock + 5400 * 1000000000 + k * 1000000000, k * 1000000000)
  loadDefaultConfig := none
  loadLocation := fun _ => .error "unknown time zone"
  atoi := fun _ => .error "invalid syntax"
  getAuditLog := fun _ _ o =>
    if o.After = "" then .ok (["A", "B"], "c1")
    else if o.After = "c1" then .ok (["C"], "")
    else .error "bad cursor"
  jsonMarshal := fun e => .ok (e.data.map fun c => Fin.ofNat c.toNat)
  gzip := fun bs => bs
  upload := fun _ _ => .ok "s3://audit-bucket"
  query := fun _ _ => .ok [⟨.ok demoCheckpoint⟩]
  marshalMap := fun _ => none
  putItem := fun _ _ _ => none

/-- As `demo`, but the source answers by position: the first request gets the
page A, B with cursor `c1`, the second the page C with no cursor, any further
one an error. -/
def demoScripted : Services String :=
  { demo with
    getAuditLog := fun tr _ _ =>
      match requestCount tr with
      | 0 => .ok (["A", "B"], "c1")
      | 1 => .ok (["C"], "")
      | _ => .error "no more pages" }

/-- As `demo`, but the source fails on the second request. -/
def demoFailing : Services String :=
  { demo with
    getAuditLog := fun tr _ _ =>
      match requestCount tr with
      | 0 => .ok (["A", "B"], "c1")
      | _ => .error "502 Bad Gateway" }

/-- As `demo`, but the source has nothing for any window. -/
def demoQuiet : Services String :=
  { demo with getAuditLog := fun _ _ _ => .ok ([], "") }

/-- As `demoQuiet`, but the table holds no checkpoint for the day. -/
def demoCold : Services String :=
  { demoQuiet with query := fun _ _ => .ok [] }

/-- As `demo`, but every upload is refused. -/
def demoNoUpload : Services String :=
  { demo with upload := fun _ _ => .error "AccessDenied" }

/-- A process after a successful `init` that loaded `demoCheckpoint`. -/
def demoState : State where
  githubToken := "token"
  githubOrg := "acme"
  bucketName := "audit-bucket"
  bucketPrefix := ""
  bookmarkTable := "bookmarks"
  timeLocal := UTC
  clients := true
  bm := some demoCheckpoint
  trace := []
  clock := 0

/-- The demo process after `init`. -/
def demoStarted : State := (init demo (initialState demo)).state

/-- The demo process after `init` and one invocation of `Handler`. -/
def demoAfterFirst : State := (Handler demo 1 demoStarted).state

/-- The demo process after `init` and two invocations of `Handler`. -/
def demoAfterSecond : State := (Handler demo 1 demoAfterFirst).state

/-- As `demo`, but the clock advances a tenth of a second per reading. -/
def demoFast : Services String :=
  { demo with
    now := fun k => (tenOClock + 5400 * 1000000000 + k * 100000000, k * 100000000) }

/-- The fast-clock process after `init` and two invocations of `Handler`. -/
def demoFastAfterSecond : State :=
  (Handler demoFast 1 (Handler demoFast 1 (init demoFast (initialState demoFast)).state).state).state

/-- As `demo`, but the record B cannot be marshalled. -/
def demoBadRecord : Services String :=
  { demo with
    jsonMarshal := fun e =>
      if e = "B" then .error "json: unsupported value"
      else .ok (e.data.map fun c => Fin.ofNat c.toNat) }

end Obs

/-! ## Lemmas -/

section Lemmas
variable {E : Type} (S : Services E)

@[simp] theorem M.pure_apply {α : Type} (a : α) (s : State) : (pure a : M α) s = .ok a s := rfl

theorem M.bind_apply {α β : Type} (m : M α) (f : α → M β) (s : State) :
    (m >>= f) s = match m s with
      | .ok a s1 => f a s1
      | .fatal s1 => .fatal s1
      | .panic s1 => .panic s1
      | .outOfFuel s1 => .outOfFuel s1 := rfl

theorem M.bind_assoc {α β γ : Type} (m : M α) (f : α → M β) (g : β → M γ) :
    (m >>= f >>= g) = (m >>= fun a => f a >>= g) := by
  funext s
  simp only [M.bind_apply]
  cases m s <;> rfl

theorem M.pure_bind {α β : Type} (a : α) (f : α → M β) : (pure a >>= f) = f a := rfl

theorem Handler_eq (fuel : Nat) :
    Handler S fuel = (handlerFetch S fuel >>= fun e => compressAndUploadToS3 S e >>= fun _ => handlerCommit S) := by
  simp only [Handler, handlerFetch, handlerCommit, M.bind_assoc]

@[simp] theorem getState_apply (s : State) : getState s = .ok s s := rfl
@[simp] theorem modifyState_apply (f : State → State) (s : State) : modifyState f s = .ok () (f s) := rfl
@[simp] theorem logFatal_apply {α : Type} (s : State) : (logFatal : M α) s = .fatal s := rfl
@[simp] theorem nilPanic_apply {α : Type} (s : State) : (nilPanic : M α) s = .panic s := rfl
@[simp] theorem stillRunning_apply {α : Type} (s : State) : (stillRunning : M α) s = .outOfFuel s := rfl
@[simp] theorem emit_apply (e : Event) (s : State) :
    emit e s = .ok () { s with trace := s.trace ++ [e] } := rfl
@[simp] theorem timeNow_apply (s : State) :
    timeNow S s = .ok ⟨(S.now s.clock).1, some (S.now s.clock).2, s.timeLocal⟩
      { s with clock := s.clock + 1 } := rfl

theorem derefBm_some {s : State} {b : bookmark} (h : s.bm = some b) : derefBm s = .ok b s := by
  simp [derefBm, h]

theorem derefBm_none {s : State} (h : s.bm = none) : derefBm s = .panic s := by
  simp [derefBm, h]

theorem needClients_true {s : State} (h : s.clients = true) : needClients s = .ok () s := by
  simp [needClients, h]

theorem needClients_false {s : State} (h : s.clients = false) : needClients s = .panic s := by
  simp [needClients, h]

theorem getSearchPhrase_some {s : State} {b : bookmark} (h : s.bm = some b) :
    getSearchPhrase S s = .ok (windowPhrase S b) s := by
  simp only [getSearchPhrase, M.bind_apply, derefBm_some h, windowPhrase]
  split <;> rfl

theorem getSearchPhrase_none {s : State} (h : s.bm = none) :
    getSearchPhrase S s = .panic s := by
  simp only [getSearchPhrase, M.bind_apply, derefBm_none h]

theorem getAuditLogOptions_some {s : State} {b : bookmark} (h : s.bm = some b) :
    getAuditLogOptions S s = .ok (optionsFor S b) s := by
  simp only [getAuditLogOptions, M.bind_apply, getSearchPhrase_some S h, optionsFor]
  rfl

theorem getAuditLogOptions_none {s : State} (h : s.bm = none) :
    getAuditLogOptions S s = .panic s := by
  simp only [getAuditLogOptions, M.bind_apply, getSearchPhrase_none S h]

theorem doGetAuditEntries_apply (o : GetAuditLogOptions) {s : State} (h : s.clients = true) :
    doGetAuditEntries S o s =
      match S.getAuditLog s.trace s.githubOrg o with
      | .error _ => .fatal (s.request o)
      | .ok r => .ok r (s.request o) := by
  simp only [doGetAuditEntries, M.bind_apply, needClients_true h, getState_apply, emit_apply]
  generalize S.getAuditLog s.trace s.githubOrg o = r
  cases r <;> rfl

theorem doGetAuditEntries_noClients (o : GetAuditLogOptions) {s : State} (h : s.clients = false) :
    doGetAuditEntries S o s = .panic s := by
  simp only [doGetAuditEntries, M.bind_apply, needClients_false h]


theorem Requests.refl (phrase : String) (s : State) : Requests phrase s s :=
  ⟨[], by simp, by simp⟩

theorem Requests.step {phrase : String} {s s' : State} (o : GetAuditLogOptions)
    (ho : o.Phrase = phrase) (h : Requests phrase (s.request o) s') : Requests phrase s s' := by
  obtain ⟨reqs, rfl, hp⟩ := h
  refine ⟨o :: reqs, by simp [State.request], ?_⟩
  intro o' ho'
  rcases List.mem_cons.1 ho' with rfl | h'
  · exact ho
  · exact hp _ h'

theorem doGetAuditEntries_cases (o : GetAuditLogOptions) (s : State) :
    (s.clients = false ∧ doGetAuditEntries S o s = .panic s) ∨
    (s.clients = true ∧ ∃ e, S.getAuditLog s.trace s.githubOrg o = .error e ∧
      doGetAuditEntries S o s = .fatal (s.request o)) ∨
    (s.clients = true ∧ ∃ r, S.getAuditLog s.trace s.githubOrg o = .ok r ∧
      doGetAuditEntries S o s = .ok r (s.request o)) := by
  cases hc : s.clients with
  | false => exact Or.inl ⟨rfl, doGetAuditEntries_noClients S o hc⟩
  | true =>
    right
    rw [doGetAuditEntries_apply S o hc]
    cases hr : S.getAuditLog s.trace s.githubOrg o with
    | error e => exact Or.inl ⟨rfl, e, rfl, rfl⟩
    | ok r => exact Or.inr ⟨rfl, r, rfl, rfl⟩

theorem getAuditEntriesLoop_empty (fuel : Nat) (o : GetAuditLogOptions) (acc : List E) (s : State) :
    getAuditEntriesLoop S fuel o acc "" s = .ok acc s := by
  cases fuel <;> simp [getAuditEntriesLoop]

theorem getAuditEntriesLoop_zero (o : GetAuditLogOptions) (acc : List E) {after : String}
    (h : after ≠ "") (s : State) :
    getAuditEntriesLoop S 0 o acc after s = .outOfFuel s := by
  simp [getAuditEntriesLoop, h]

theorem getAuditEntriesLoop_succ (fuel : Nat) (o : GetAuditLogOptions) (acc : List E)
    {after : String} (h : after ≠ "") (s : State) :
    getAuditEntriesLoop S (fuel + 1) o acc after s =
      (doGetAuditEntries S { o with After := after } >>= fun r =>
        getAuditEntriesLoop S fuel { o with After := after } (acc ++ r.1) r.2) s := by
  simp [getAuditEntriesLoop, h]

theorem getAuditEntriesLoop_requests (fuel : Nat) :
    ∀ (o : GetAuditLogOptions) (acc : List E) (after : String) (s : State),
      Requests o.Phrase s (getAuditEntriesLoop S fuel o acc after s).state := by
  induction fuel with
  | zero =>
    intro o acc after s
    by_cases h : after = ""
    · subst h; rw [getAuditEntriesLoop_empty]; exact Requests.refl _ _
    · rw [getAuditEntriesLoop_zero S o acc h]; exact Requests.refl _ _
  | succ fuel ih =>
    intro o acc after s
    by_cases h : after = ""
    · subst h; rw [getAuditEntriesLoop_empty]; exact Requests.refl _ _
    · rw [getAuditEntriesLoop_succ S fuel o acc h, M.bind_apply]
      rcases doGetAuditEntries_cases S { o with After := after } s with
        ⟨_, hd⟩ | ⟨_, e, _, hd⟩ | ⟨_, r, _, hd⟩
      · rw [hd]; exact Requests.refl _ _
      · rw [hd]; exact Requests.step { o with After := after } rfl (Requests.refl _ _)
      · rw [hd]; exact Requests.step { o with After := after } rfl (ih _ _ _ _)


theorem requestCount_append (tr tr' : List Event) :
    requestCount (tr ++ tr') = requestCount tr + requestCount tr' := by
  induction tr with
  | nil => simp [requestCount]
  | cons e tr ih => cases e <;> simp [requestCount, ih, Nat.add_right_comm]

theorem requestCount_request (s : State) (o : GetAuditLogOptions) :
    requestCount (s.request o).trace = requestCount s.trace + 1 := by
  simp [State.request, requestCount_append, requestCount]

theorem Answers.head {n : Nat} {p : List E × String} {ps : List (List E × String)}
    (h : Answers S n (p :: ps)) (tr : List Event) (org : String) (o : GetAuditLogOptions)
    (htr : requestCount tr = n) : S.getAuditLog tr org o = .ok p := by
  have := h 0 (by simp) tr org o (by simpa using htr)
  simpa using this

theorem Answers.tail {n : Nat} {p : List E × String} {ps : List (List E × String)}
    (h : Answers S n (p :: ps)) : Answers S (n + 1) ps := by
  intro i hi tr org o htr
  have := h (i + 1) (by simpa using hi) tr org o (by omega)
  simpa using this

theorem getAuditEntriesLoop_After (fuel : Nat) (o : GetAuditLogOptions) (x : String)
    (acc : List E) (after : String) :
    getAuditEntriesLoop S fuel { o with After := x } acc after =
      getAuditEntriesLoop S fuel o acc after := by
  cases fuel <;> simp [getAuditEntriesLoop]

theorem sendAll_nil (s : State) (o : GetAuditLogOptions) : sendAll s o [] = s := by
  simp [sendAll]

theorem sendAll_cons (s : State) (o : GetAuditLogOptions) (a : String) (as : List String) :
    sendAll (s.request { o with After := a }) o as = sendAll s o (a :: as) := by
  simp [sendAll, State.request]

theorem lastCursor_ne {α : Type} (ps : List (α × String)) :
    ∀ (after : String), after ≠ "" → (∀ p ∈ ps, p.2 ≠ "") → lastCursor after ps ≠ "" := by
  induction ps with
  | nil => intro after h _; exact h
  | cons p ps ih =>
    intro after _ hp
    exact ih p.2 (hp p (by simp)) (fun q hq => hp q (by simp [hq]))

theorem cursorsSent_append_single {α : Type} (ps : List (α × String)) (x : α × String) :
    ∀ (after : String), cursorsSent after (ps ++ [x]) = after :: ps.map Prod.snd := by
  induction ps with
  | nil => intro after; simp [cursorsSent]
  | cons p ps ih => intro after; simp [cursorsSent, ih]

theorem getAuditEntriesLoop_consume (o : GetAuditLogOptions) (pages : List (List E × String)) :
    ∀ (fuel : Nat) (acc : List E) (after : String) (s : State),
      after ≠ "" → s.clients = true → (∀ p ∈ pages, p.2 ≠ "") →
      Answers S (requestCount s.trace) pages →
      getAuditEntriesLoop S (fuel + pages.length) o acc after s =
        getAuditEntriesLoop S fuel o (acc ++ (pages.map Prod.fst).flatten) (lastCursor after pages)
          (sendAll s o (cursorsSent after pages)) := by
  induction pages with
  | nil => intro fuel acc after s _ _ _ _; simp [lastCursor, cursorsSent, sendAll_nil]
  | cons p ps ih =>
    intro fuel acc after s hafter hc hp hans
    have hstep : fuel + (p :: ps).length = (fuel + ps.length) + 1 := by simp; omega
    rw [hstep, getAuditEntriesLoop_succ S _ o acc hafter, M.bind_apply,
      doGetAuditEntries_apply S _ hc, hans.head S s.trace s.githubOrg _ rfl]
    simp only
    rw [getAuditEntriesLoop_After,
      ih fuel (acc ++ p.1) p.2 (s.request { o with After := after }) (hp p (by simp)) hc
        (fun q hq => hp q (by simp [hq]))
        (by rw [requestCount_request]; exact hans.tail S)]
    simp [lastCursor, cursorsSent, sendAll_cons]

theorem getAuditEntries_none (fuel : Nat) {s : State} (h : s.bm = none) :
    getAuditEntries S fuel s = .panic s := by
  simp only [getAuditEntries, M.bind_apply, getAuditLogOptions_none S h]

theorem getAuditEntries_some (fuel : Nat) {s : State} {b : bookmark} (h : s.bm = some b) :
    getAuditEntries S fuel s =
      (doGetAuditEntries S (optionsFor S b) >>= fun r =>
        getAuditEntriesLoop S fuel (optionsFor S b) r.1 r.2) s := by
  simp only [getAuditEntries, M.bind_apply, getAuditLogOptions_some S h]

theorem getAuditEntries_requests (fuel : Nat) {s : State} {b : bookmark} (h : s.bm = some b) :
    Requests (windowPhrase S b) s (getAuditEntries S fuel s).state := by
  rw [getAuditEntries_some S fuel h, M.bind_apply]
  rcases doGetAuditEntries_cases S (optionsFor S b) s with
    ⟨_, hd⟩ | ⟨_, e, _, hd⟩ | ⟨_, r, _, hd⟩
  · rw [hd]; exact Requests.refl _ _
  · rw [hd]; exact Requests.step (optionsFor S b) rfl (Requests.refl _ _)
  · rw [hd]; exact Requests.step (optionsFor S b) rfl (getAuditEntriesLoop_requests S _ _ _ _ _)

theorem getAuditEntries_ok {fuel : Nat} {s s' : State} {es : List E}
    (h : getAuditEntries S fuel s = .ok es s') :
    s.clients = true ∧ ∃ b, s.bm = some b ∧ ∃ reqs : List GetAuditLogOptions,
      s' = { s with trace := s.trace ++
        (optionsFor S b :: reqs).map (Event.getAuditLog s.githubOrg) } ∧
      ∀ o ∈ reqs, o.Phrase = windowPhrase S b := by
  obtain hb | ⟨b, hb⟩ : s.bm = none ∨ ∃ b, s.bm = some b := by
    cases s.bm <;> simp
  · rw [getAuditEntries_none S fuel hb] at h; cases h
  · have hc : s.clients = true := by
      by_cases hc : s.clients = true
      · exact hc
      · rw [getAuditEntries_some S fuel hb, M.bind_apply,
          doGetAuditEntries_noClients S _ (by simpa using hc)] at h
        cases h
    refine ⟨hc, b, hb, ?_⟩
    rw [getAuditEntries_some S fuel hb, M.bind_apply, doGetAuditEntries_apply S _ hc] at h
    cases hr : S.getAuditLog s.trace s.githubOrg (optionsFor S b) with
    | error e => rw [hr] at h; cases h
    | ok r =>
      rw [hr] at h
      simp only at h
      have hreq := getAuditEntriesLoop_requests S fuel (optionsFor S b) r.1 r.2
        (s.request (optionsFor S b))
      rw [h] at hreq
      obtain ⟨reqs, hst, hp⟩ := hreq
      refine ⟨reqs, ?_, hp⟩
      simp only [Res.state] at hst
      rw [hst]
      simp [State.request]

theorem handlerFetch_apply (fuel : Nat) (s : State) :
    handlerFetch S fuel s =
      if s.configMissing then .fatal s else getAuditEntries S fuel s.withDefaultPrefix := by
  simp only [handlerFetch, M.bind_apply, getState_apply, State.configMissing,
    State.withDefaultPrefix]
  by_cases h1 : s.githubToken = "" ∨ s.githubOrg = "" ∨ s.bucketName = "" ∨ s.bookmarkTable = ""
  · simp [h1]
  · by_cases h2 : s.bucketPrefix = "" <;> simp [h1, h2]

theorem writeRecords_cases (logs : List E) :
    ∀ (buf : Bytes) (s : State),
      ((∃ r ∈ logs, ∃ e, S.jsonMarshal r = .error e) ∧ writeRecords S logs buf s = .fatal s) ∨
      ∃ buffer, writeRecords S logs buf s = .ok buffer s := by
  induction logs with
  | nil => intro buf s; exact Or.inr ⟨buf, rfl⟩
  | cons r rest ih =>
    intro buf s
    cases hr : S.jsonMarshal r with
    | error e =>
      left
      refine ⟨⟨r, by simp, e, hr⟩, ?_⟩
      simp [writeRecords, hr]
    | ok body =>
      have hw : writeRecords S (r :: rest) buf s = writeRecords S rest (buf ++ body ++ [10]) s := by
        simp [writeRecords, hr]
      rw [hw]
      rcases ih (buf ++ body ++ [10]) s with ⟨⟨r', hr', e, he⟩, hf⟩ | hok
      · exact Or.inl ⟨⟨r', by simp [hr'], e, he⟩, hf⟩
      · exact Or.inr hok

theorem writeRecords_ok (m : E → Bytes) (logs : List E) :
    ∀ (buf : Bytes) (s : State), (∀ r ∈ logs, S.jsonMarshal r = .ok (m r)) →
      writeRecords S logs buf s = .ok (buf ++ (logs.map fun r => m r ++ [10]).flatten) s := by
  induction logs with
  | nil => intro buf s _; simp [writeRecords]
  | cons r rest ih =>
    intro buf s h
    have hr := h r (by simp)
    have hw : writeRecords S (r :: rest) buf s = writeRecords S rest (buf ++ m r ++ [10]) s := by
      simp [writeRecords, hr]
    rw [hw, ih _ s (fun q hq => h q (by simp [hq]))]
    simp

theorem compressAndUploadToS3_nil (s : State) :
    compressAndUploadToS3 S ([] : List E) s = .ok () s := by
  simp [compressAndUploadToS3]

theorem compressAndUploadToS3_fatal {logs : List E} {s : State} (hl : logs ≠ [])
    (hw : writeRecords S logs [] s = .fatal s) :
    compressAndUploadToS3 S logs s = .fatal s := by
  have hlen : ¬ logs.length < 1 := by
    cases logs with
    | nil => exact absurd rfl hl
    | cons _ _ => simp
  simp only [compressAndUploadToS3, hlen, if_false, M.bind_apply, hw]

theorem compressAndUploadToS3_buffer {logs : List E} {s : State} {buffer : Bytes}
    (hl : logs ≠ []) (hw : writeRecords S logs [] s = .ok buffer s) :
    compressAndUploadToS3 S logs s =
      if s.clients = true then
        match S.upload s.trace (uploadInput S s buffer) with
        | .error _ => .fatal (uploaded S s buffer)
        | .ok _ => .ok () (uploaded S s buffer)
      else .panic { s with clock := s.clock + 1 } := by
  have hlen : ¬ logs.length < 1 := by
    cases logs with
    | nil => exact absurd rfl hl
    | cons _ _ => simp
  simp only [compressAndUploadToS3, hlen, if_false, M.bind_apply, hw, timeNow_apply,
    getState_apply]
  by_cases hc : s.clients = true
  · simp only [needClients, hc, if_true, emit_apply, uploadInput, uploaded, clockTime]
    generalize S.upload _ _ = r
    cases r <;> rfl
  · simp [needClients, hc]

theorem handlerCommit_none {s : State} (h : s.bm = none) : handlerCommit S s = .panic s := by
  simp only [handlerCommit, M.bind_apply, derefBm_none h]

theorem handlerCommit_some {s : State} {b : bookmark} (h : s.bm = some b) :
    handlerCommit S s =
      match S.marshalMap (nextBookmark S s b) with
      | some _ => .ok () { s with clock := s.clock + 2 }
      | none =>
        if s.clients = true then
          .ok () { s with clock := s.clock + 2,
                          trace := s.trace ++ [.putItem s.bookmarkTable (nextBookmark S s b)] }
        else .panic { s with clock := s.clock + 2 } := by
  simp only [handlerCommit, M.bind_apply, derefBm_some h, newBookmark, timeNow_apply,
    M.pure_apply, addBookmark]
  simp only [nextBookmark, clockTime]
  generalize S.marshalMap _ = m
  cases m with
  | some err => rfl
  | none =>
    by_cases hc : s.clients = true
    · simp [M.bind_apply, needClients, hc]
    · simp [M.bind_apply, needClients, hc]

theorem requestCount_sendAll (s : State) (o : GetAuditLogOptions) (as : List String) :
    requestCount (sendAll s o as).trace = requestCount s.trace + as.length := by
  induction as generalizing s with
  | nil => simp [sendAll_nil]
  | cons a as ih =>
    rw [← sendAll_cons, ih, requestCount_request]
    simp
    omega

theorem cursorsSent_length {α : Type} (ps : List (α × String)) :
    ∀ (after : String), (cursorsSent after ps).length = ps.length := by
  induction ps with
  | nil => intro after; rfl
  | cons p ps ih => intro after; simp [cursorsSent, ih]

theorem cursorsSent_snoc {α : Type} (ps : List (α × String)) :
    ∀ (after : String), cursorsSent after ps ++ [lastCursor after ps] = after :: ps.map Prod.snd := by
  induction ps with
  | nil => intro after; rfl
  | cons p ps ih => intro after; simp [cursorsSent, lastCursor, ih]

theorem sendAll_request (s : State) (o : GetAuditLogOptions) (as : List String) (c : String) :
    (sendAll s o as).request { o with After := c } = sendAll s o (as ++ [c]) := by
  simp [sendAll, State.request]

theorem Answers.init {n : Nat} {ps : List (List E × String)} {x : List E × String}
    (h : Answers S n (ps ++ [x])) : Answers S n ps := by
  intro i hi tr org o htr
  have := h i (by simp; omega) tr org o htr
  rw [this]
  simp [List.getElem_append_left hi]

theorem Answers.last {n : Nat} {ps : List (List E × String)} {x : List E × String}
    (h : Answers S n (ps ++ [x])) (tr : List Event) (org : String) (o : GetAuditLogOptions)
    (htr : requestCount tr = n + ps.length) : S.getAuditLog tr org o = .ok x := by
  have := h ps.length (by simp) tr org o htr
  rw [this]
  simp

/-- The loop run against a source that answers with the pages `ps` (all with
cursors) and then a last page without cursor. -/
theorem getAuditEntriesLoop_complete (o : GetAuditLogOptions) (ps : List (List E × String))
    (last : List E) (fuel : Nat) (acc : List E) (after : String) (s : State)
    (hafter : after ≠ "") (hc : s.clients = true) (hps : ∀ p ∈ ps, p.2 ≠ "")
    (hans : Answers S (requestCount s.trace) (ps ++ [(last, "")])) (hfuel : ps.length < fuel) :
    getAuditEntriesLoop S fuel o acc after s =
      .ok (acc ++ (ps.map Prod.fst).flatten ++ last) (sendAll s o (after :: ps.map Prod.snd)) := by
  obtain ⟨k, rfl⟩ : ∃ k, fuel = (k + 1) + ps.length := ⟨fuel - ps.length - 1, by omega⟩
  rw [getAuditEntriesLoop_consume S o ps (k + 1) acc after s hafter hc hps hans.init,
    getAuditEntriesLoop_succ S k o _ (lastCursor_ne ps after hafter hps), M.bind_apply,
    doGetAuditEntries_apply S _ (by simpa [sendAll] using hc),
    Answers.last S hans _ _ _ (by rw [requestCount_sendAll, cursorsSent_length])]
  simp only [getAuditEntriesLoop_empty, sendAll_request, cursorsSent_snoc]

/-- The loop run against a source that answers with the pages `ps` (all with
cursors) and then fails. -/
theorem getAuditEntriesLoop_failing (o : GetAuditLogOptions) (ps : List (List E × String))
    (fuel : Nat) (acc : List E) (after : String) (s : State)
    (hafter : after ≠ "") (hc : s.clients = true) (hps : ∀ p ∈ ps, p.2 ≠ "")
    (hans : Answers S (requestCount s.trace) ps)
    (herr : ∀ tr org o, requestCount tr = requestCount s.trace + ps.length →
      ∃ e, S.getAuditLog tr org o = .error e)
    (hfuel : ps.length < fuel) :
    getAuditEntriesLoop S fuel o acc after s = .fatal (sendAll s o (after :: ps.map Prod.snd)) := by
  obtain ⟨k, rfl⟩ : ∃ k, fuel = (k + 1) + ps.length := ⟨fuel - ps.length - 1, by omega⟩
  obtain ⟨e, he⟩ := herr (sendAll s o (cursorsSent after ps)).trace
    (sendAll s o (cursorsSent after ps)).githubOrg { o with After := lastCursor after ps }
    (by rw [requestCount_sendAll, cursorsSent_length])
  rw [getAuditEntriesLoop_consume S o ps (k + 1) acc after s hafter hc hps hans,
    getAuditEntriesLoop_succ S k o _ (lastCursor_ne ps after hafter hps), M.bind_apply,
    doGetAuditEntries_apply S _ (by simpa [sendAll] using hc), he]
  simp only [sendAll_request, cursorsSent_snoc]

theorem uploads_append (tr tr' : List Event) : uploads (tr ++ tr') = uploads tr ++ uploads tr' := by
  induction tr with
  | nil => rfl
  | cons e tr ih => cases e <;> simp [uploads, ih]

theorem puts_append (tr tr' : List Event) : puts (tr ++ tr') = puts tr ++ puts tr' := by
  induction tr with
  | nil => rfl
  | cons e tr ih => cases e <;> simp [puts, ih]

theorem requests_append (tr tr' : List Event) :
    requests (tr ++ tr') = requests tr ++ requests tr' := by
  induction tr with
  | nil => rfl
  | cons e tr ih => cases e <;> simp [requests, ih]

theorem uploads_requests (org : String) (reqs : List GetAuditLogOptions) :
    uploads (reqs.map (Event.getAuditLog org)) = [] := by
  induction reqs with
  | nil => rfl
  | cons o reqs ih => simpa [uploads] using ih

theorem puts_requests (org : String) (reqs : List GetAuditLogOptions) :
    puts (reqs.map (Event.getAuditLog org)) = [] := by
  induction reqs with
  | nil => rfl
  | cons o reqs ih => simpa [puts] using ih

theorem requests_requests (org : String) (reqs : List GetAuditLogOptions) :
    requests (reqs.map (Event.getAuditLog org)) = reqs := by
  induction reqs with
  | nil => rfl
  | cons o reqs ih => simpa [requests] using ih

@[simp] theorem withDefaultPrefix_clients (s : State) : s.withDefaultPrefix.clients = s.clients := by
  unfold State.withDefaultPrefix; split <;> rfl

@[simp] theorem withDefaultPrefix_bm (s : State) : s.withDefaultPrefix.bm = s.bm := by
  unfold State.withDefaultPrefix; split <;> rfl

@[simp] theorem withDefaultPrefix_trace (s : State) : s.withDefaultPrefix.trace = s.trace := by
  unfold State.withDefaultPrefix; split <;> rfl

@[simp] theorem withDefaultPrefix_githubOrg (s : State) :
    s.withDefaultPrefix.githubOrg = s.githubOrg := by
  unfold State.withDefaultPrefix; split <;> rfl

theorem withDefaultPrefix_eq (s : State) :
    s.withDefaultPrefix = { s with bucketPrefix := s.withDefaultPrefix.bucketPrefix } := by
  unfold State.withDefaultPrefix; split <;> rfl

/-- Whatever its outcome, the fetch phase leaves the state as it was except for
the default prefix and the requests added to the trace, all of which carry the
phrase of the bookmark in memory. -/
theorem handlerFetch_frame (fuel : Nat) (s : State) :
    ∃ (reqs : List GetAuditLogOptions) (pfx : String),
      (handlerFetch S fuel s).state =
        { s with bucketPrefix := pfx,
                 trace := s.trace ++ reqs.map (Event.getAuditLog s.githubOrg) } ∧
      (∀ b, s.bm = some b → ∀ o ∈ reqs, o.Phrase = windowPhrase S b) := by
  rw [handlerFetch_apply]
  by_cases hcfg : s.configMissing
  · exact ⟨[], s.bucketPrefix, by simp [hcfg, Res.state], by simp⟩
  · simp only [hcfg, if_false]
    obtain hb | ⟨b, hb⟩ : s.bm = none ∨ ∃ b, s.bm = some b := by
      cases s.bm <;> simp
    · rw [getAuditEntries_none S fuel (by simpa using hb)]
      refine ⟨[], s.withDefaultPrefix.bucketPrefix, ?_, by simp⟩
      simp only [Res.state, List.map_nil, List.append_nil]
      exact withDefaultPrefix_eq s
    · have hb' : s.withDefaultPrefix.bm = some b := by simpa using hb
      obtain ⟨reqs, hst, hp⟩ := getAuditEntries_requests S fuel hb'
      refine ⟨reqs, s.withDefaultPrefix.bucketPrefix, ?_, ?_⟩
      · rw [hst]
        conv_lhs => rw [withDefaultPrefix_eq s]
      · intro b' hb'' o ho
        rw [hb] at hb''
        cases hb''
        exact hp o ho

/-- A fetch phase that ends normally has run in an initialised process and
has issued at least one request. -/
theorem handlerFetch_ok {fuel : Nat} {s s' : State} {es : List E}
    (h : handlerFetch S fuel s = .ok es s') :
    s.clients = true ∧ ∃ b, s.bm = some b ∧ ∃ (reqs : List GetAuditLogOptions) (pfx : String),
      s' = { s with bucketPrefix := pfx, trace := s.trace ++
        (optionsFor S b :: reqs).map (Event.getAuditLog s.githubOrg) } ∧
      ∀ o ∈ reqs, o.Phrase = windowPhrase S b := by
  rw [handlerFetch_apply] at h
  by_cases hcfg : s.configMissing
  · simp [hcfg] at h
  · simp only [hcfg, if_false] at h
    obtain ⟨hc, b, hb, reqs, hst, hp⟩ := getAuditEntries_ok S h
    refine ⟨by simpa using hc, b, by simpa using hb, reqs, s.withDefaultPrefix.bucketPrefix, ?_, hp⟩
    rw [hst]
    conv_lhs => rw [withDefaultPrefix_eq s]

/-- Against a source that answers with the pages `pages` (all with cursors)
and then fails, `getAuditEntries` ends in `log.Fatalf`. -/
theorem getAuditEntries_failing (fuel : Nat) (s : State) (b : bookmark)
    (pages : List (List E × String))
    (hc : s.clients = true) (hb : s.bm = some b) (hcur : ∀ p ∈ pages, p.2 ≠ "")
    (hans : Answers S (requestCount s.trace) pages)
    (herr : ∀ tr org o, requestCount tr = requestCount s.trace + pages.length →
      ∃ e, S.getAuditLog tr org o = .error e)
    (hfuel : pages.length ≤ fuel) :
    ∃ s', getAuditEntries S fuel s = .fatal s' := by
  rw [getAuditEntries_some S fuel hb, M.bind_apply, doGetAuditEntries_apply S _ hc]
  cases pages with
  | nil =>
    obtain ⟨e, he⟩ := herr s.trace s.githubOrg (optionsFor S b) (by simp)
    rw [he]
    exact ⟨_, rfl⟩
  | cons p ps =>
    rw [Answers.head S hans s.trace s.githubOrg _ rfl]
    simp only
    refine ⟨_, getAuditEntriesLoop_failing S (optionsFor S b) ps fuel p.1 p.2
      (s.request (optionsFor S b)) (hcur p (by simp)) (by simpa [State.request] using hc)
      (fun q hq => hcur q (by simp [hq]))
      (by rw [requestCount_request]; exact Answers.tail S hans) ?_ (by simpa using hfuel)⟩
    intro tr org o htr
    apply herr tr org o
    rw [requestCount_request] at htr
    simp
    omega

/-- Whatever its outcome, the archive phase leaves the state as it was except
for the clock and at most one upload added to the trace. -/
theorem compressAndUploadToS3_frame (logs : List E) (s : State) :
    ∃ (clk : Nat) (ups : List PutObjectInput),
      (compressAndUploadToS3 S logs s).state =
        { s with clock := clk, trace := s.trace ++ ups.map Event.upload } ∧
      ups.length ≤ 1 := by
  by_cases hl : logs = []
  · subst hl
    rw [compressAndUploadToS3_nil]
    exact ⟨s.clock, [], by simp [Res.state], by simp⟩
  · rcases writeRecords_cases S logs [] s with ⟨_, hw⟩ | ⟨buffer, hw⟩
    · rw [compressAndUploadToS3_fatal S hl hw]
      exact ⟨s.clock, [], by simp [Res.state], by simp⟩
    · rw [compressAndUploadToS3_buffer S hl hw]
      by_cases hc : s.clients = true
      · simp only [hc, if_true]
        refine ⟨s.clock + 1, [uploadInput S s buffer], ?_, by simp⟩
        generalize S.upload _ _ = r
        cases r <;> simp [Res.state, uploaded, hc]
      · simp only [hc, if_false]
        exact ⟨s.clock + 1, [], by simp [Res.state], by simp⟩

/-- Whatever its outcome, the commit phase leaves the state as it was except
for the clock and at most one `PutItem` added to the trace, whose bookmark
starts where the bookmark in memory ends and lasts one hour. -/
theorem handlerCommit_frame (s : State) :
    ∃ (clk : Nat) (pts : List bookmark),
      (handlerCommit S s).state =
        { s with clock := clk, trace := s.trace ++ pts.map (Event.putItem s.bookmarkTable) } ∧
      pts.length ≤ 1 ∧
      (∀ b, s.bm = some b → ∀ c ∈ pts, c.From = b.To ∧ c.To = b.To.Add (1 * Hour)) ∧
      (∀ s', handlerCommit S s = .ok () s' → (∀ c, S.marshalMap c = none) → pts.length = 1) := by
  obtain hb | ⟨b, hb⟩ : s.bm = none ∨ ∃ b, s.bm = some b := by
    cases s.bm <;> simp
  · rw [handlerCommit_none S hb]
    exact ⟨s.clock, [], by simp [Res.state], by simp, by simp, by simp⟩
  · rw [handlerCommit_some S hb]
    cases hm : S.marshalMap (nextBookmark S s b) with
    | some err =>
      refine ⟨s.clock + 2, [], by simp [Res.state], by simp, by simp, ?_⟩
      intro s' _ hall
      rw [hall] at hm
      cases hm
    | none =>
      by_cases hc : s.clients = true
      · simp only [hc, if_true]
        refine ⟨s.clock + 2, [nextBookmark S s b], by simp [Res.state], by simp, ?_, by simp⟩
        intro b' hb' c hcm
        rw [hb] at hb'
        cases hb'
        have : c = nextBookmark S s b := by simpa using hcm
        subst this
        exact ⟨rfl, rfl⟩
      · simp only [hc, if_false]
        exact ⟨s.clock + 2, [], by simp [Res.state], by simp, by simp, by simp⟩

/-- Whatever its outcome, a run of `Handler` leaves the state as it was except
for the default prefix, the clock and the calls added to the trace: requests
carrying the phrase of the bookmark in memory, then at most one upload, then at
most one `PutItem`, of a bookmark that starts where the bookmark in memory ends
and lasts one hour. -/
theorem Handler_frame (fuel : Nat) (s : State) :
    ∃ (pfx : String) (clk : Nat) (reqs : List GetAuditLogOptions) (ups : List PutObjectInput)
      (pts : List bookmark),
      (Handler S fuel s).state =
        { s with bucketPrefix := pfx, clock := clk,
                 trace := s.trace ++ (reqs.map (Event.getAuditLog s.githubOrg) ++
                   ups.map Event.upload ++ pts.map (Event.putItem s.bookmarkTable)) } ∧
      ups.length ≤ 1 ∧ pts.length ≤ 1 ∧
      (∀ b, s.bm = some b → (∀ o ∈ reqs, o.Phrase = windowPhrase S b) ∧
        ∀ c ∈ pts, c.From = b.To ∧ c.To = b.To.Add (1 * Hour)) ∧
      (∀ s', Handler S fuel s = .ok () s' →
        reqs ≠ [] ∧ ((∀ c, S.marshalMap c = none) → pts.length = 1)) := by
  rw [Handler_eq, M.bind_apply]
  cases hF : handlerFetch S fuel s with
  | ok es s1 =>
    obtain ⟨_, b, hb, reqs, pfx, hs1, hp⟩ := handlerFetch_ok S hF
    simp only [M.bind_apply]
    obtain ⟨clk2, ups, hs2, hups⟩ := compressAndUploadToS3_frame S es s1
    cases hA : compressAndUploadToS3 S es s1 with
    | ok u s2 =>
      rw [hA] at hs2
      simp only [Res.state] at hs2
      obtain ⟨clk3, pts, hs3, hpts, hwin, hone⟩ := handlerCommit_frame S s2
      refine ⟨pfx, clk3, optionsFor S b :: reqs, ups, pts, ?_, hups, hpts, ?_, ?_⟩
      · subst hs2
        subst hs1
        rw [hs3]
        simp
      · intro b' hb'
        rw [hb] at hb'
        cases hb'
        refine ⟨?_, hwin b (by rw [hs2, hs1]; exact hb)⟩
        intro o ho
        rcases List.mem_cons.1 ho with rfl | h
        · rfl
        · exact hp o h
      · intro s' hs'
        exact ⟨by simp, hone s' hs'⟩
    | fatal s2 =>
      rw [hA] at hs2
      simp only [Res.state] at hs2
      refine ⟨pfx, clk2, optionsFor S b :: reqs, ups, [], ?_, hups, by simp, ?_, by simp⟩
      · subst hs2
        subst hs1
        simp [Res.state]
      · intro b' hb'
        rw [hb] at hb'
        cases hb'
        refine ⟨?_, by simp⟩
        intro o ho
        rcases List.mem_cons.1 ho with rfl | h
        · rfl
        · exact hp o h
    | panic s2 =>
      rw [hA] at hs2
      simp only [Res.state] at hs2
      refine ⟨pfx, clk2, optionsFor S b :: reqs, ups, [], ?_, hups, by simp, ?_, by simp⟩
      · subst hs2
        subst hs1
        simp [Res.state]
      · intro b' hb'
        rw [hb] at hb'
        cases hb'
        refine ⟨?_, by simp⟩
        intro o ho
        rcases List.mem_cons.1 ho with rfl | h
        · rfl
        · exact hp o h
    | outOfFuel s2 =>
      rw [hA] at hs2
      simp only [Res.state] at hs2
      refine ⟨pfx, clk2, optionsFor S b :: reqs, ups, [], ?_, hups, by simp, ?_, by simp⟩
      · subst hs2
        subst hs1
        simp [Res.state]
      · intro b' hb'
        rw [hb] at hb'
        cases hb'
        refine ⟨?_, by simp⟩
        intro o ho
        rcases List.mem_cons.1 ho with rfl | h
        · rfl
        · exact hp o h
  | fatal s1 =>
    obtain ⟨reqs, pfx, hst, hp⟩ := handlerFetch_frame S fuel s
    rw [hF] at hst
    simp only [Res.state] at hst
    refine ⟨pfx, s.clock, reqs, [], [], ?_, by simp, by simp, ?_, by simp⟩
    · simp only [Res.state]; rw [hst]; simp
    · intro b hb; exact ⟨hp b hb, by simp⟩
  | panic s1 =>
    obtain ⟨reqs, pfx, hst, hp⟩ := handlerFetch_frame S fuel s
    rw [hF] at hst
    simp only [Res.state] at hst
    refine ⟨pfx, s.clock, reqs, [], [], ?_, by simp, by simp, ?_, by simp⟩
    · simp only [Res.state]; rw [hst]; simp
    · intro b hb; exact ⟨hp b hb, by simp⟩
  | outOfFuel s1 =>
    obtain ⟨reqs, pfx, hst, hp⟩ := handlerFetch_frame S fuel s
    rw [hF] at hst
    simp only [Res.state] at hst
    refine ⟨pfx, s.clock, reqs, [], [], ?_, by simp, by simp, ?_, by simp⟩
    · simp only [Res.state]; rw [hst]; simp
    · intro b hb; exact ⟨hp b hb, by simp⟩

theorem requests_uploads (ups : List PutObjectInput) : requests (ups.map Event.upload) = [] := by
  induction ups with
  | nil => rfl
  | cons u ups ih => simpa [requests] using ih

theorem requests_puts (table : String) (pts : List bookmark) :
    requests (pts.map (Event.putItem table)) = [] := by
  induction pts with
  | nil => rfl
  | cons c pts ih => simpa [requests] using ih

theorem puts_uploads (ups : List PutObjectInput) : puts (ups.map Event.upload) = [] := by
  induction ups with
  | nil => rfl
  | cons u ups ih => simpa [puts] using ih

theorem puts_puts (table : String) (pts : List bookmark) :
    puts (pts.map (Event.putItem table)) = pts := by
  induction pts with
  | nil => rfl
  | cons c pts ih => simpa [puts] using ih

theorem uploads_uploads (ups : List PutObjectInput) : uploads (ups.map Event.upload) = ups := by
  induction ups with
  | nil => rfl
  | cons u ups ih => simpa [uploads] using ih

theorem uploads_puts (table : String) (pts : List bookmark) :
    uploads (pts.map (Event.putItem table)) = [] := by
  induction pts with
  | nil => rfl
  | cons c pts ih => simpa [uploads] using ih

/-- A run of `Handler` that ends normally, described by the calls it added to
the trace. -/
theorem Handler_ok_events {fuel : Nat} {s s' : State} (h : Handler S fuel s = .ok () s') :
    ∃ (b : bookmark) (ev : List Event), s.bm = some b ∧ s'.bm = some b ∧
      s'.trace = s.trace ++ ev ∧ requests ev ≠ [] ∧
      (∀ o ∈ requests ev, o.Phrase = windowPhrase S b) ∧
      (∀ c ∈ puts ev, c.From = b.To ∧ c.To = b.To.Add (1 * Hour)) ∧
      (uploads ev).length ≤ 1 ∧ (puts ev).length ≤ 1 ∧
      ((∀ c, S.marshalMap c = none) → (puts ev).length = 1) := by
  obtain ⟨pfx, clk, reqs, ups, pts, hst, hups, hpts, hwin, hok⟩ := Handler_frame S fuel s
  rw [h] at hst
  simp only [Res.state] at hst
  obtain ⟨hreqs, hone⟩ := hok s' h
  have hb : ∃ b, s.bm = some b := by
    rw [Handler_eq, M.bind_apply] at h
    cases hF : handlerFetch S fuel s with
    | ok es s1 =>
      obtain ⟨_, b, hb, _⟩ := handlerFetch_ok S hF
      exact ⟨b, hb⟩
    | fatal s1 => rw [hF] at h; cases h
    | panic s1 => rw [hF] at h; cases h
    | outOfFuel s1 => rw [hF] at h; cases h
  obtain ⟨b, hb⟩ := hb
  have hreq : requests (reqs.map (Event.getAuditLog s.githubOrg) ++ ups.map Event.upload ++
      pts.map (Event.putItem s.bookmarkTable)) = reqs := by
    simp [requests_append, requests_requests, requests_uploads, requests_puts]
  have hput : puts (reqs.map (Event.getAuditLog s.githubOrg) ++ ups.map Event.upload ++
      pts.map (Event.putItem s.bookmarkTable)) = pts := by
    simp [puts_append, puts_requests, puts_uploads, puts_puts]
  have hupl : uploads (reqs.map (Event.getAuditLog s.githubOrg) ++ ups.map Event.upload ++
      pts.map (Event.putItem s.bookmarkTable)) = ups := by
    simp [uploads_append, uploads_requests, uploads_uploads, uploads_puts]
  refine ⟨b, _, hb, by rw [hst]; exact hb, by rw [hst], ?_, ?_, ?_, ?_, ?_, ?_⟩
  · rw [hreq]; exact hreqs
  · rw [hreq]; exact (hwin b hb).1
  · rw [hput]; exact (hwin b hb).2
  · rw [hupl]; exact hups
  · rw [hput]; exact hpts
  · rw [hput]; exact hone

theorem writeRecords_ok_all (logs : List E) :
    ∀ (buf buffer : Bytes) (s s' : State), writeRecords S logs buf s = .ok buffer s' →
      ∀ r ∈ logs, ∃ body, S.jsonMarshal r = .ok body := by
  induction logs with
  | nil => intro _ _ _ _ _ r hr; cases hr
  | cons r rest ih =>
    intro buf buffer s s' h q hq
    cases hr : S.jsonMarshal r with
    | error e => simp [writeRecords, hr] at h
    | ok body =>
      have hw : writeRecords S (r :: rest) buf s = writeRecords S rest (buf ++ body ++ [10]) s := by
        simp [writeRecords, hr]
      rw [hw] at h
      rcases List.mem_cons.1 hq with rfl | hq'
      · exact ⟨body, hr⟩
      · exact ih _ _ _ _ h q hq'

theorem writeRecords_error {logs : List E} (buf : Bytes) (s : State)
    (h : ∃ r ∈ logs, ∃ e, S.jsonMarshal r = .error e) : writeRecords S logs buf s = .fatal s := by
  rcases writeRecords_cases S logs buf s with ⟨_, hf⟩ | ⟨buffer, hok⟩
  · exact hf
  · obtain ⟨r, hr, e, he⟩ := h
    obtain ⟨body, hbody⟩ := writeRecords_ok_all S logs buf buffer s s hok r hr
    rw [he] at hbody
    cases hbody

theorem recordsFrom_line (line : Bytes) :
    ∀ (cur rest : Bytes), (10 : Byte) ∉ line →
      recordsFrom (line ++ 10 :: rest) cur = (cur ++ line) :: recordsFrom rest [] := by
  induction line with
  | nil => intro cur rest _; simp [recordsFrom]
  | cons b line ih =>
    intro cur rest h
    have hb : b ≠ 10 := fun hb => h (by simp [hb])
    have hl : (10 : Byte) ∉ line := fun hl => h (by simp [hl])
    simp [recordsFrom, hb, ih _ _ hl]

theorem records_lines (lines : List Bytes) (h : ∀ l ∈ lines, (10 : Byte) ∉ l) :
    records ((lines.map fun l => l ++ [10]).flatten) = lines := by
  induction lines with
  | nil => simp [records, recordsFrom]
  | cons l lines ih =>
    have hl : (10 : Byte) ∉ l := h l (by simp)
    have hrest := ih (fun q hq => h q (by simp [hq]))
    simp only [records] at hrest ⊢
    simp only [List.map_cons, List.flatten_cons, List.append_assoc, List.singleton_append]
    rw [recordsFrom_line l [] _ hl, hrest]
    simp

theorem splitOn_lines (lines : List Bytes) (h : ∀ l ∈ lines, (10 : Byte) ∉ l) :
    ((lines.map fun l => l ++ [10]).flatten).splitOn 10 = lines ++ [[]] := by
  induction lines with
  | nil => simp
  | cons l lines ih =>
    have hl : ∀ x ∈ l, ¬ ((x == (10 : Byte)) = true) := by
      intro x hx hx10
      have : x = 10 := by simpa using hx10
      exact h l (by simp) (this ▸ hx)
    have hrest := ih (fun q hq => h q (by simp [hq]))
    simp only [List.splitOn] at hrest ⊢
    simp only [List.map_cons, List.flatten_cons, List.append_assoc, List.singleton_append]
    rw [List.splitOnP_first _ l hl 10 (by simp), hrest]
    simp

/-- The part of `init` that handles `TIME_ZONE`, when the setting is usable. -/
theorem init_timeZone (h : timeZoneOk S) (s0 : State) :
    ((if S.getenv "TIME_ZONE" ≠ "" then
        match S.loadLocation (S.getenv "TIME_ZONE") with
        | .error _ => (logFatal : M Unit)
        | .ok loc => modifyState fun s => { s with timeLocal := loc }
      else pure ()) : M Unit) s0 = .ok () { s0 with timeLocal := initLocal S s0 } := by
  unfold initLocal
  by_cases htz : S.getenv "TIME_ZONE" = ""
  · simp [htz]
  · rcases h with h | ⟨loc, hloc⟩
    · exact absurd h htz
    · simp [htz, hloc]

theorem getBookmark_apply {s : State} (hc : s.clients = true) :
    getBookmark S s =
      let date := Time.FormatEventDate ⟨(S.now s.clock).1, some (S.now s.clock).2, s.timeLocal⟩
      let q : QueryInput :=
        { TableName := s.bookmarkTable, ScanIndexForward := false, Limit := 1,
          KeyConditionExpression := "EventDate = :EventDate", EventDate := date }
      let s1 : State := { s with clock := s.clock + 1, trace := s.trace ++ [.query q] }
      match S.query s.trace q with
      | .error err => .ok (.error err) s1
      | .ok [] => .ok (.error ("no bookmark found for given date: " ++ date)) s1
      | .ok (item :: _) =>
        match item.decoded with
        | .error err => .ok (.error ("error on unmarshaling: " ++ err ++ "\n")) s1
        | .ok book => .ok (.ok book) s1 := by
  simp only [getBookmark, M.bind_apply, timeNow_apply, getState_apply, needClients, hc, if_true,
    emit_apply]
  generalize S.query _ _ = r
  cases r with
  | error e => rfl
  | ok items =>
    cases items with
    | nil => rfl
    | cons item rest =>
      simp only
      generalize item.decoded = d
      cases d <;> rfl

/-- What `init` does when the table holds a checkpoint for the day. -/
theorem init_found (s0 : State) (p : bookmark) (item : Item) (rest : List Item)
    (hcfg : S.loadDefaultConfig = none) (htz : timeZoneOk S)
    (hq : S.query s0.trace (initQuery S s0) = .ok (item :: rest))
    (hitem : item.decoded = .ok p) :
    init S s0 = .ok ()
      { s0 with timeLocal := initLocal S s0, clients := true, bm := some p,
                trace := s0.trace ++ [.query (initQuery S s0)], clock := s0.clock + 1 } := by
  simp only [init, hcfg, M.bind_apply, init_timeZone S htz, modifyState_apply]
  rw [getBookmark_apply S rfl]
  simp only [initQuery] at hq
  simp only [hq, hitem, modifyState_apply, initQuery]

/-- What `init` does when the table holds no checkpoint for the day. -/
theorem init_cold (s0 : State)
    (hcfg : S.loadDefaultConfig = none) (htz : timeZoneOk S)
    (hq : S.query s0.trace (initQuery S s0) = .ok []) :
    init S s0 = .ok ()
      { s0 with timeLocal := initLocal S s0, clients := true, bm := some (coldBookmark S s0),
                trace := s0.trace ++ [.query (initQuery S s0)], clock := s0.clock + 4 } := by
  simp only [init, hcfg, M.bind_apply, init_timeZone S htz, modifyState_apply]
  rw [getBookmark_apply S rfl]
  simp only [initQuery] at hq
  simp only [hq, M.bind_apply, timeNow_apply, newBookmark, M.pure_apply, modifyState_apply,
    initQuery, coldBookmark, startupTime]

/-- Whatever its outcome, a run of `Handler` only adds calls to the trace; its
requests carry the phrase of the bookmark in memory, and any bookmark it puts
into the table starts where that bookmark ends and lasts one hour. -/
theorem Handler_events (fuel : Nat) (s : State) :
    ∃ ev : List Event, (Handler S fuel s).state.trace = s.trace ++ ev ∧
      ∀ b, s.bm = some b → (∀ o ∈ requests ev, o.Phrase = windowPhrase S b) ∧
        ∀ c ∈ puts ev, c.From = b.To ∧ c.To = b.To.Add (1 * Hour) := by
  obtain ⟨pfx, clk, reqs, ups, pts, hst, _, _, hwin, _⟩ := Handler_frame S fuel s
  refine ⟨_, by rw [hst], ?_⟩
  intro b hb
  have hreq : requests (reqs.map (Event.getAuditLog s.githubOrg) ++ ups.map Event.upload ++
      pts.map (Event.putItem s.bookmarkTable)) = reqs := by
    simp [requests_append, requests_requests, requests_uploads, requests_puts]
  have hput : puts (reqs.map (Event.getAuditLog s.githubOrg) ++ ups.map Event.upload ++
      pts.map (Event.putItem s.bookmarkTable)) = pts := by
    simp [puts_append, puts_requests, puts_uploads, puts_puts]
  rw [hreq, hput]
  exact hwin b hb

theorem yearOfEra_bounds (doe : Int) (h0 : 0 ≤ doe) (h1 : doe ≤ 146096) :
    0 ≤ yearOfEra doe ∧ yearOfEra doe ≤ 399 := by
  unfold yearOfEra
  omega

theorem dayOfYear_bounds (doe : Int) (h0 : 0 ≤ doe) (h1 : doe ≤ 146096) :
    0 ≤ dayOfYear doe ∧ dayOfYear doe ≤ 365 := by
  unfold dayOfYear yearOfEra
  have hb : doe / 36524 = 0 ∨ doe / 36524 = 1 ∨ doe / 36524 = 2 ∨ doe / 36524 = 3 ∨
      doe / 36524 = 4 := by omega
  generalize hyoe : (doe - doe / 1460 + doe / 36524 - doe / 146096) / 365 = yoe
  have hk : yoe % 4 = 0 ∨ yoe % 4 = 1 ∨ yoe % 4 = 2 ∨ yoe % 4 = 3 := by omega
  have hc : yoe / 100 = 0 ∨ yoe / 100 = 1 ∨ yoe / 100 = 2 ∨ yoe / 100 = 3 := by omega
  rcases hb with hb | hb | hb | hb | hb <;> rcases hk with hk | hk | hk | hk <;>
    rcases hc with hc | hc | hc | hc <;> omega

theorem civilFromDays_month (z : Int) :
    1 ≤ (civilFromDays z).2.1 ∧ (civilFromDays z).2.1 ≤ 12 := by
  have hd := dayOfYear_bounds ((z + 719468) % 146097) (by omega) (by omega)
  simp only [civilFromDays, monthFromMarch]
  generalize dayOfYear ((z + 719468) % 146097) = doy at hd ⊢
  split_ifs <;> omega

theorem civilFromDays_day (z : Int) :
    1 ≤ (civilFromDays z).2.2 ∧ (civilFromDays z).2.2 ≤ 31 := by
  have hd := dayOfYear_bounds ((z + 719468) % 146097) (by omega) (by omega)
  simp only [civilFromDays, monthFromMarch]
  generalize dayOfYear ((z + 719468) % 146097) = doy at hd ⊢
  omega

theorem daysFromCivil_civilFromDays (z : Int) :
    daysFromCivil (civilFromDays z).1 (civilFromDays z).2.1 (civilFromDays z).2.2 = z := by
  have hy := yearOfEra_bounds ((z + 719468) % 146097) (by omega) (by omega)
  have hd := dayOfYear_bounds ((z + 719468) % 146097) (by omega) (by omega)
  have hdoy : dayOfYear ((z + 719468) % 146097) = (z + 719468) % 146097 -
      (365 * yearOfEra ((z + 719468) % 146097) + yearOfEra ((z + 719468) % 146097) / 4 -
        yearOfEra ((z + 719468) % 146097) / 100) := rfl
  have hz : z + 719468 = 146097 * ((z + 719468) / 146097) + (z + 719468) % 146097 :=
    (Int.ediv_add_emod _ _).symm
  simp only [civilFromDays, daysFromCivil, monthFromMarch]
  generalize dayOfYear ((z + 719468) % 146097) = doy at hd hdoy ⊢
  generalize yearOfEra ((z + 719468) % 146097) = yoe at hy hdoy ⊢
  generalize (z + 719468) / 146097 = era at hz ⊢
  generalize (z + 719468) % 146097 = doe at hz hdoy ⊢
  have hmp : 0 ≤ (5 * doy + 2) / 153 ∧ (5 * doy + 2) / 153 ≤ 11 := by omega
  generalize hmpe : (5 * doy + 2) / 153 = mp at hmp ⊢
  have he : (yoe + era * 400) / 400 = era := by omega
  have hm : (yoe + era * 400) % 400 = yoe := by omega
  by_cases h10 : mp < 10
  · have h1 : ¬ (mp + 3 ≤ 2) := by omega
    have h2 : mp + 3 > 2 := by omega
    have h3 : mp + 3 - 3 = mp := by omega
    simp only [h10, if_true, h1, if_false, h2, h3, he, hm]
    omega
  · have h1 : mp - 9 ≤ 2 := by omega
    have h2 : ¬ (mp - 9 > 2) := by omega
    have h3 : mp - 9 + 9 = mp := by omega
    have h4 : yoe + era * 400 + 1 - 1 = yoe + era * 400 := by omega
    simp only [h10, if_false, h1, if_true, h2, h3, h4, he, hm]
    omega

theorem digitChar_toNat (d : Nat) : (digitChar d).toNat - 48 = d % 10 := by
  unfold digitChar
  have h : d % 10 < 10 := Nat.mod_lt _ (by decide)
  generalize d % 10 = k at h ⊢
  interval_cases k <;> rfl

theorem digitChar_ne (d : Nat) : digitChar d ≠ '/' ∧ digitChar d ≠ '-' := by
  unfold digitChar
  have h : d % 10 < 10 := Nat.mod_lt _ (by decide)
  generalize d % 10 = k at h ⊢
  interval_cases k <;> decide

theorem digitsValue_snoc (cs : List Char) (c : Char) :
    digitsValue (cs ++ [c]) = 10 * digitsValue cs + (c.toNat - 48) := by
  simp [digitsValue, List.foldl_append]

theorem digitsValue_zeros (k : Nat) (cs : List Char) :
    digitsValue (List.replicate k '0' ++ cs) = digitsValue cs := by
  induction k with
  | zero => simp
  | succ k ih =>
    rw [List.replicate_succ, List.cons_append]
    unfold digitsValue at ih ⊢
    rw [List.foldl_cons]
    exact ih

theorem digitsValue_decimalFuel (f : Nat) : ∀ u, u < f → digitsValue (decimalFuel f u) = u := by
  induction f with
  | zero => intro u h; omega
  | succ f ih =>
    intro u h
    unfold decimalFuel
    by_cases h10 : u < 10
    · simp only [h10, if_true]
      have := digitsValue_snoc [] (digitChar u)
      simp only [List.nil_append] at this
      rw [this, digitChar_toNat]
      simp [digitsValue]
      omega
    · simp only [h10, if_false]
      rw [digitsValue_snoc, ih (u / 10) (by omega), digitChar_toNat]
      omega

theorem digitsValue_decimal (u : Nat) : digitsValue (decimal u) = u :=
  digitsValue_decimalFuel (u + 1) u (by omega)

theorem decimalFuel_chars (f : Nat) : ∀ u, ∀ c ∈ decimalFuel f u, c ≠ '/' ∧ c ≠ '-' := by
  induction f with
  | zero => intro u c hc; simp [decimalFuel] at hc
  | succ f ih =>
    intro u c hc
    unfold decimalFuel at hc
    by_cases h10 : u < 10
    · simp only [h10, if_true, List.mem_singleton] at hc
      subst hc
      exact digitChar_ne u
    · simp only [h10, if_false, List.mem_append, List.mem_singleton] at hc
      rcases hc with hc | hc
      · exact ih _ c hc
      · subst hc; exact digitChar_ne u

theorem decimal_ne_nil (u : Nat) : decimal u ≠ [] := by
  unfold decimal decimalFuel
  by_cases h10 : u < 10 <;> simp [h10]

theorem appendInt_eq (x : Int) (width : Nat) :
    appendInt x width = (if x < 0 then ['-'] else []) ++ padded x.natAbs width := by
  simp [appendInt, padded]

theorem padded_chars (u width : Nat) : ∀ c ∈ padded u width, c ≠ '/' ∧ c ≠ '-' := by
  intro c hc
  rcases List.mem_append.1 hc with h | h
  · have : c = '0' := (List.mem_replicate.1 h).2
    subst this
    decide
  · exact decimalFuel_chars _ _ c h

theorem padded_ne_nil (u width : Nat) : padded u width ≠ [] := by
  unfold padded
  simp [decimal_ne_nil]

theorem padded_inj {u v width : Nat} (h : padded u width = padded v width) : u = v := by
  have := congrArg digitsValue h
  simpa [padded, digitsValue_zeros, digitsValue_decimal] using this

theorem appendInt_chars (x : Int) (width : Nat) : ∀ c ∈ appendInt x width, c ≠ '/' := by
  intro c hc
  rw [appendInt_eq] at hc
  rcases List.mem_append.1 hc with h | h
  · split at h
    · have : c = '-' := by simpa using h
      subst this; decide
    · simp at h
  · exact (padded_chars _ _ c h).1

theorem appendInt_inj {x y : Int} {width : Nat} (h : appendInt x width = appendInt y width) :
    x = y := by
  rw [appendInt_eq, appendInt_eq] at h
  by_cases hx : x < 0 <;> by_cases hy : y < 0
  · simp only [hx, hy, if_true, List.singleton_append, List.cons.injEq, true_and] at h
    have := padded_inj h
    omega
  · simp only [hx, hy, if_true, if_false, List.singleton_append, List.nil_append] at h
    have hmem : '-' ∈ padded y.natAbs width := by rw [← h]; simp
    exact absurd rfl (padded_chars _ _ _ hmem).2
  · simp only [hx, hy, if_true, if_false, List.singleton_append, List.nil_append] at h
    have hmem : '-' ∈ padded x.natAbs width := by rw [h]; simp
    exact absurd rfl (padded_chars _ _ _ hmem).2
  · simp only [hx, hy, if_false, List.nil_append] at h
    have := padded_inj h
    omega

theorem appendInt_two_length (x : Int) (h0 : 0 ≤ x) (h1 : x < 100) :
    (appendInt x 2).length = 2 := by
  obtain ⟨n, rfl⟩ := Int.eq_ofNat_of_zero_le h0
  have hn : n < 100 := by omega
  have hneg : ¬ ((n : Int) < 0) := by omega
  simp only [appendInt, hneg, if_false, List.nil_append, Int.natAbs_ofNat]
  by_cases h10 : n < 10
  · have : decimal n = [digitChar n] := by
      unfold decimal decimalFuel; simp [h10]
    simp [this]
  · have h2 : n / 10 < 10 := by omega
    have : decimal n = [digitChar (n / 10), digitChar n] := by
      unfold decimal decimalFuel
      simp only [h10, if_false]
      have hn1 : ∃ k, n = k + 1 := ⟨n - 1, by omega⟩
      obtain ⟨k, rfl⟩ := hn1
      unfold decimalFuel
      simp [h2]
    simp [this]

theorem last_segment {α : Type} (sep : α) (a : List α) :
    ∀ (b s t : List α), sep ∉ s → sep ∉ t → a ++ sep :: s = b ++ sep :: t → s = t := by
  induction a with
  | nil =>
    intro b s t hs ht h
    cases b with
    | nil => simpa using h
    | cons y b =>
      simp only [List.nil_append, List.cons_append, List.cons.injEq] at h
      exact absurd (by rw [h.2]; simp) hs
  | cons x a ih =>
    intro b s t hs ht h
    cases b with
    | nil =>
      simp only [List.nil_append, List.cons_append, List.cons.injEq] at h
      exact absurd (by rw [← h.2]; simp) ht
    | cons y b =>
      simp only [List.cons_append, List.cons.injEq] at h
      exact ih b s t hs ht h.2

theorem Time.Hour_bounds (t : Time) : 0 ≤ t.Hour ∧ t.Hour < 100 := by
  unfold Time.Hour; omega

theorem Time.Minute_bounds (t : Time) : 0 ≤ t.Minute ∧ t.Minute < 100 := by
  unfold Time.Minute; omega

theorem Time.Second_bounds (t : Time) : 0 ≤ t.Second ∧ t.Second < 100 := by
  unfold Time.Second; omega

theorem Time.Month_bounds (t : Time) : 0 ≤ t.Month ∧ t.Month < 100 := by
  have := civilFromDays_month (t.localSec / 86400)
  unfold Time.Month; omega

theorem Time.Day_bounds (t : Time) : 0 ≤ t.Day ∧ t.Day < 100 := by
  have := civilFromDays_day (t.localSec / 86400)
  unfold Time.Day; omega

theorem formatClock_length (t : Time) : (formatClock t).length = 8 := by
  simp [formatClock, appendInt_two_length _ t.Hour_bounds.1 t.Hour_bounds.2,
    appendInt_two_length _ t.Minute_bounds.1 t.Minute_bounds.2,
    appendInt_two_length _ t.Second_bounds.1 t.Second_bounds.2]

theorem formatClock_inj {t u : Time} (h : formatClock t = formatClock u) :
    t.Hour = u.Hour ∧ t.Minute = u.Minute ∧ t.Second = u.Second := by
  simp only [formatClock] at h
  have l1 := appendInt_two_length _ t.Second_bounds.1 t.Second_bounds.2
  have l2 := appendInt_two_length _ u.Second_bounds.1 u.Second_bounds.2
  obtain ⟨h, h3⟩ := List.append_inj' h (by rw [l1, l2])
  obtain ⟨h, _⟩ := List.append_inj' h rfl
  have l3 := appendInt_two_length _ t.Minute_bounds.1 t.Minute_bounds.2
  have l4 := appendInt_two_length _ u.Minute_bounds.1 u.Minute_bounds.2
  obtain ⟨h, h2⟩ := List.append_inj' h (by rw [l3, l4])
  obtain ⟨h1, _⟩ := List.append_inj' h rfl
  exact ⟨appendInt_inj h1, appendInt_inj h2, appendInt_inj h3⟩

theorem formatDate_inj {t u : Time} (h : formatDate t = formatDate u) :
    t.Year = u.Year ∧ t.Month = u.Month ∧ t.Day = u.Day := by
  simp only [formatDate] at h
  have l1 := appendInt_two_length _ t.Day_bounds.1 t.Day_bounds.2
  have l2 := appendInt_two_length _ u.Day_bounds.1 u.Day_bounds.2
  obtain ⟨h, h3⟩ := List.append_inj' h (by rw [l1, l2])
  obtain ⟨h, _⟩ := List.append_inj' h rfl
  have l3 := appendInt_two_length _ t.Month_bounds.1 t.Month_bounds.2
  have l4 := appendInt_two_length _ u.Month_bounds.1 u.Month_bounds.2
  obtain ⟨h, h2⟩ := List.append_inj' h (by rw [l3, l4])
  obtain ⟨h1, _⟩ := List.append_inj' h rfl
  exact ⟨appendInt_inj h1, appendInt_inj h2, appendInt_inj h3⟩

theorem rfc3339Chars_inj {t u : Time} (hloc : t.loc.offset = u.loc.offset)
    (h : rfc3339Chars t = rfc3339Chars u) :
    (t.Year = u.Year ∧ t.Month = u.Month ∧ t.Day = u.Day) ∧
      t.Hour = u.Hour ∧ t.Minute = u.Minute ∧ t.Second = u.Second := by
  simp only [rfc3339Chars, hloc] at h
  obtain ⟨h, _⟩ := List.append_inj' h rfl
  obtain ⟨h, hclock⟩ := List.append_inj' h (by rw [formatClock_length, formatClock_length])
  obtain ⟨hdate, _⟩ := List.append_inj' h rfl
  exact ⟨formatDate_inj hdate, formatClock_inj hclock⟩

theorem localSec_of_fields {t u : Time}
    (h : (t.Year = u.Year ∧ t.Month = u.Month ∧ t.Day = u.Day) ∧
      t.Hour = u.Hour ∧ t.Minute = u.Minute ∧ t.Second = u.Second) :
    t.localSec = u.localSec := by
  obtain ⟨⟨hy, hm, hd⟩, hH, hM, hS⟩ := h
  have ht := daysFromCivil_civilFromDays (t.localSec / 86400)
  have hu := daysFromCivil_civilFromDays (u.localSec / 86400)
  simp only [Time.Year, Time.Month, Time.Day] at hy hm hd
  rw [hy, hm, hd, hu] at ht
  simp only [Time.Hour, Time.Minute, Time.Second] at hH hM hS
  omega

theorem chars_append {a b : List Char} (ha : ∀ c ∈ a, c ≠ '/') (hb : ∀ c ∈ b, c ≠ '/') :
    ∀ c ∈ a ++ b, c ≠ '/' := by
  intro c hc
  rcases List.mem_append.1 hc with h | h
  · exact ha c h
  · exact hb c h

theorem chars_single (x : Char) (hx : x ≠ '/') : ∀ c ∈ [x], c ≠ '/' := by
  intro c hc
  have : c = x := by simpa using hc
  rw [this]
  exact hx

theorem formatNumTZ_chars (offset : Int) (colon : Bool) :
    ∀ c ∈ formatNumTZ offset colon, c ≠ '/' := by
  unfold formatNumTZ
  refine chars_append (chars_append (chars_append ?_ (appendInt_chars _ _)) ?_)
    (appendInt_chars _ _)
  · split
    · exact chars_single '-' (by decide)
    · exact chars_single '+' (by decide)
  · split
    · exact chars_single ':' (by decide)
    · intro c hc; cases hc

theorem rfc3339Chars_chars (t : Time) : ∀ c ∈ rfc3339Chars t, c ≠ '/' := by
  unfold rfc3339Chars formatDate formatClock
  refine chars_append (chars_append (chars_append ?_ (chars_single 'T' (by decide))) ?_) ?_
  · exact chars_append (chars_append (chars_append (chars_append (appendInt_chars _ _)
      (chars_single '-' (by decide))) (appendInt_chars _ _)) (chars_single '-' (by decide)))
      (appendInt_chars _ _)
  · exact chars_append (chars_append (chars_append (chars_append (appendInt_chars _ _)
      (chars_single ':' (by decide))) (appendInt_chars _ _)) (chars_single ':' (by decide)))
      (appendInt_chars _ _)
  · unfold formatISO8601ColonTZ
    split
    · exact chars_single 'Z' (by decide)
    · exact formatNumTZ_chars _ _

theorem rfc3339Chars_same_second {t u : Time} (hloc : t.loc = u.loc)
    (h : t.Unix = u.Unix) : rfc3339Chars t = rfc3339Chars u := by
  have hls : t.localSec = u.localSec := by simp [Time.localSec, h, hloc]
  simp [rfc3339Chars, formatDate, formatClock, Time.Year, Time.Month, Time.Day,
    Time.Hour, Time.Minute, Time.Second, hls, hloc]

theorem suffix_no_slash (x : Time) : '/' ∉ rfc3339Chars x ++ ".json.gz".data := by
  intro hx
  rcases List.mem_append.1 hx with h1 | h1
  · exact rfc3339Chars_chars x _ h1 rfl
  · revert h1; decide

end Lemmas

/-! ## The claims -/

section Claims
variable {E : Type} (S : Services E)

/-- C4: against a source that answers the next requests with the pages
`init` (each with a non-empty cursor) and then with the page `last` and an empty
cursor, `getAuditEntries` returns (given an iteration budget of at least the
number of pages in `init`) the concatenation of all pages in the order
received, after exactly one request per page: the first with an empty `After`,
each following one with the cursor of the page before it, and all other
options unchanged. Page sizes play no part. -/
theorem getAuditEntries_follows_cursor (fuel : Nat) (s : State) (b : bookmark)
    (init : List (List E × String)) (last : List E)
    (hc : s.clients = true) (hb : s.bm = some b) (hcur : ∀ p ∈ init, p.2 ≠ "")
    (hans : Answers S (requestCount s.trace) (init ++ [(last, "")]))
    (hfuel : init.length ≤ fuel) :
    getAuditEntries S fuel s =
      .ok ((init.map Prod.fst).flatten ++ last)
        { s with trace := s.trace ++ ("" :: init.map Prod.snd).map fun a =>
            Event.getAuditLog s.githubOrg { optionsFor S b with After := a } } := by
  rw [getAuditEntries_some S fuel hb, M.bind_apply, doGetAuditEntries_apply S _ hc]
  cases init with
  | nil =>
    rw [Answers.head S hans s.trace s.githubOrg _ rfl]
    simp only [getAuditEntriesLoop_empty]
    simp [State.request, optionsFor]
  | cons p ps =>
    rw [Answers.head S hans s.trace s.githubOrg _ rfl]
    simp only
    have hp : p.2 ≠ "" := hcur p (by simp)
    have hps : ∀ q ∈ ps, q.2 ≠ "" := fun q hq => hcur q (by simp [hq])
    have htail : Answers S (requestCount (s.request (optionsFor S b)).trace) (ps ++ [(last, "")]) := by
      rw [requestCount_request]; exact Answers.tail S hans
    rw [getAuditEntriesLoop_complete S (optionsFor S b) ps last fuel p.1 p.2
      (s.request (optionsFor S b)) hp (by simpa [State.request] using hc) hps htail
      (by simpa using hfuel)]
    simp [sendAll, State.request, optionsFor]


/-- Witness for C4: pages A, B (cursor `c1`) and then C (no cursor) give exactly
A, B, C after two requests, the second one carrying `c1`. -/
theorem getAuditEntries_follows_cursor_witness :
    demoState.clients = true ∧ demoState.bm = some demoCheckpoint ∧
    Answers demoScripted (requestCount demoState.trace) [(["A", "B"], "c1"), (["C"], "")] ∧
    getAuditEntries demoScripted 1 demoState =
      .ok ["A", "B", "C"]
        { demoState with trace :=
            [.getAuditLog "acme" { optionsFor demoScripted demoCheckpoint with After := "" },
             .getAuditLog "acme" { optionsFor demoScripted demoCheckpoint with After := "c1" }] } :=
  have hans : Answers demoScripted (requestCount demoState.trace)
      ([(["A", "B"], "c1")] ++ [(["C"], "")]) := by
    intro i hi tr org o htr
    have h2 : i = 0 ∨ i = 1 := by simp at hi; omega
    rcases h2 with rfl | rfl
    · have h0 : requestCount tr = 0 := by simpa [demoState, requestCount] using htr
      simp [demoScripted, h0]
    · have h1 : requestCount tr = 1 := by simpa [demoState, requestCount] using htr
      simp [demoScripted, h1]
  ⟨rfl, rfl, hans,
    getAuditEntries_follows_cursor demoScripted 1 demoState demoCheckpoint
      [(["A", "B"], "c1")] ["C"] rfl rfl (by simp) hans (by simp)⟩


/-- C2: if the source answers the first requests of a cycle with pages that
all carry a cursor and then fails (on the first request when there is no such
page, on a later one otherwise), `Handler` ends in `log.Fatalf` (given an
iteration budget that reaches the failing request) and the trace it leaves
holds no upload and no `PutItem` beyond those already there. -/
theorem Handler_fetch_failure (fuel : Nat) (s : State) (b : bookmark)
    (pages : List (List E × String))
    (hc : s.clients = true) (hb : s.bm = some b) (hcur : ∀ p ∈ pages, p.2 ≠ "")
    (hans : Answers S (requestCount s.trace) pages)
    (herr : ∀ tr org o, requestCount tr = requestCount s.trace + pages.length →
      ∃ e, S.getAuditLog tr org o = .error e)
    (hfuel : pages.length ≤ fuel) :
    ∃ s', Handler S fuel s = .fatal s' ∧
      uploads s'.trace = uploads s.trace ∧ puts s'.trace = puts s.trace := by
  have hfatal : ∃ s', handlerFetch S fuel s = .fatal s' := by
    rw [handlerFetch_apply]
    by_cases hcfg : s.configMissing
    · exact ⟨s, by simp [hcfg]⟩
    · simp only [hcfg, if_false]
      exact getAuditEntries_failing S fuel s.withDefaultPrefix b pages (by simpa using hc)
        (by simpa using hb) hcur (by simpa using hans) (by simpa using herr) hfuel
  obtain ⟨s', hs'⟩ := hfatal
  obtain ⟨reqs, pfx, hst, _⟩ := handlerFetch_frame S fuel s
  rw [hs'] at hst
  simp only [Res.state] at hst
  refine ⟨s', ?_, ?_, ?_⟩
  · rw [Handler_eq, M.bind_apply, hs']
  · rw [hst]; simp [uploads_append, uploads_requests]
  · rw [hst]; simp [puts_append, puts_requests]

/-- Witness for C2: the source delivers one page with a cursor and fails on the
second request; the run is fatal and leaves no upload and no `PutItem`. -/
theorem Handler_fetch_failure_witness :
    ∃ s', Handler demoFailing 1 demoState = .fatal s' ∧
      uploads s'.trace = uploads demoState.trace ∧ puts s'.trace = puts demoState.trace :=
  Handler_fetch_failure demoFailing 1 demoState demoCheckpoint [(["A", "B"], "c1")] rfl rfl
    (by simp)
    (by
      intro i hi tr org o htr
      have h0 : i = 0 := by simp at hi; omega
      subst h0
      have h0 : requestCount tr = 0 := by simpa [demoState, requestCount] using htr
      simp [demoFailing, h0])
    (by
      intro tr org o htr
      have h1 : requestCount tr = 1 := by simpa [demoState, requestCount] using htr
      exact ⟨"502 Bad Gateway", by simp [demoFailing, h1]⟩)
    (by simp)


/-- C10: `Handler` never changes the bookmark in memory, whatever the outcome
of the run. Hence when two invocations in a row end normally in one process,
both send their requests (at least one each) with the phrase of that same
bookmark, and every bookmark either of them puts into the table starts at its
`To` and ends one hour later; each puts exactly one when `MarshalMap` does not
fail. -/
theorem Handler_keeps_bm (fuel1 fuel2 : Nat) (s : State) :
    (Handler S fuel1 s).state.bm = s.bm ∧
    ∀ s1 s2, Handler S fuel1 s = .ok () s1 → Handler S fuel2 s1 = .ok () s2 →
      ∃ (b : bookmark) (ev1 ev2 : List Event),
        s.bm = some b ∧ s1.bm = some b ∧ s2.bm = some b ∧
        s1.trace = s.trace ++ ev1 ∧ s2.trace = s1.trace ++ ev2 ∧
        requests ev1 ≠ [] ∧ requests ev2 ≠ [] ∧
        (∀ o ∈ requests ev1 ++ requests ev2, o.Phrase = windowPhrase S b) ∧
        (∀ c ∈ puts ev1 ++ puts ev2, c.From = b.To ∧ c.To = b.To.Add (1 * Hour)) ∧
        ((∀ c, S.marshalMap c = none) → (puts ev1).length = 1 ∧ (puts ev2).length = 1) := by
  constructor
  · obtain ⟨pfx, clk, reqs, ups, pts, hst, _⟩ := Handler_frame S fuel1 s
    rw [hst]
  · intro s1 s2 h1 h2
    obtain ⟨b, ev1, hb, hb1, ht1, hr1, hp1, hw1, _, _, ho1⟩ := Handler_ok_events S h1
    obtain ⟨b', ev2, hb', hb2, ht2, hr2, hp2, hw2, _, _, ho2⟩ := Handler_ok_events S h2
    rw [hb1] at hb'
    cases hb'
    refine ⟨b, ev1, ev2, hb, hb1, hb2, ht1, ht2, hr1, hr2, ?_, ?_, fun h => ⟨ho1 h, ho2 h⟩⟩
    · intro o ho
      rcases List.mem_append.1 ho with h | h
      · exact hp1 o h
      · exact hp2 o h
    · intro c hc
      rcases List.mem_append.1 hc with h | h
      · exact hw1 c h
      · exact hw2 c h

/-- Witness for C10: two invocations in a row after `demoCheckpoint` (10:00 to
11:00) was loaded. -/
theorem Handler_keeps_bm_witness :
    (Handler demo 1 demoState).state.bm = demoState.bm ∧
    ∃ (b : bookmark) (ev1 ev2 : List Event),
      demoState.bm = some b ∧ (Handler demo 1 demoState).state.bm = some b ∧
      (Handler demo 1 (Handler demo 1 demoState).state).state.bm = some b ∧
      (Handler demo 1 demoState).state.trace = demoState.trace ++ ev1 ∧
      (Handler demo 1 (Handler demo 1 demoState).state).state.trace =
        (Handler demo 1 demoState).state.trace ++ ev2 ∧
      requests ev1 ≠ [] ∧ requests ev2 ≠ [] ∧
      (∀ o ∈ requests ev1 ++ requests ev2, o.Phrase = windowPhrase demo b) ∧
      (∀ c ∈ puts ev1 ++ puts ev2, c.From = b.To ∧ c.To = b.To.Add (1 * Hour)) ∧
      ((∀ c, demo.marshalMap c = none) → (puts ev1).length = 1 ∧ (puts ev2).length = 1) :=
  ⟨(Handler_keeps_bm demo 1 1 demoState).1,
    (Handler_keeps_bm demo 1 1 demoState).2 _ _ rfl rfl⟩


/-- C5: for an empty batch `compressAndUploadToS3` returns normally and leaves
the state, and so the trace, untouched; and a `Handler` run whose fetch returned
an empty batch ends normally, adds no upload to the trace and goes on to
`addBookmark` with the bookmark from `bm.To` to `bm.To` plus one hour, which is
put into the table (as the last call of the run) unless `MarshalMap` fails. -/
theorem empty_batch_still_commits (fuel : Nat) (s s1 : State)
    (h : handlerFetch S fuel s = .ok [] s1) :
    (∀ s0, compressAndUploadToS3 S ([] : List E) s0 = .ok () s0) ∧
    ∃ (b : bookmark) (s' : State),
      s.bm = some b ∧ Handler S fuel s = .ok () s' ∧
      uploads s'.trace = uploads s.trace ∧
      (nextBookmark S s1 b).From = b.To ∧
      (nextBookmark S s1 b).To.wall = b.To.wall + 3600 * 1000000000 ∧
      (S.marshalMap (nextBookmark S s1 b) = none →
        s'.trace = s1.trace ++ [.putItem s.bookmarkTable (nextBookmark S s1 b)]) := by
  refine ⟨fun s0 => compressAndUploadToS3_nil S s0, ?_⟩
  obtain ⟨hc, b, hb, reqs, pfx, hs1, _⟩ := handlerFetch_ok S h
  have hb1 : s1.bm = some b := by rw [hs1]; exact hb
  have hc1 : s1.clients = true := by rw [hs1]; exact hc
  have ht1 : s1.bookmarkTable = s.bookmarkTable := by rw [hs1]
  have hu1 : uploads s1.trace = uploads s.trace := by
    rw [hs1]; simp [uploads_append, uploads_requests, -List.map_cons]
  have hrun : Handler S fuel s = handlerCommit S s1 := by
    rw [Handler_eq, M.bind_apply, h]
    simp only [M.bind_apply, compressAndUploadToS3_nil]
  rw [hrun, handlerCommit_some S hb1]
  cases hm : S.marshalMap (nextBookmark S s1 b) with
  | some err =>
    exact ⟨b, _, hb, rfl, hu1, rfl, by simp [nextBookmark, Time.Add, Hour], by simp [hm]⟩
  | none =>
    simp only [hc1, if_true]
    refine ⟨b, _, hb, rfl, ?_, rfl, by simp [nextBookmark, Time.Add, Hour], ?_⟩
    · simp [uploads_append, uploads, hu1]
    · intro _; simp [ht1]

/-- Witness for C5: a cycle over a window for which the source has nothing. -/
theorem empty_batch_still_commits_witness :
    handlerFetch demoQuiet 0 demoState = .ok [] (handlerFetch demoQuiet 0 demoState).state ∧
    ∃ (b : bookmark) (s' : State),
      demoState.bm = some b ∧ Handler demoQuiet 0 demoState = .ok () s' ∧
      uploads s'.trace = uploads demoState.trace ∧
      (nextBookmark demoQuiet (handlerFetch demoQuiet 0 demoState).state b).From = b.To ∧
      (nextBookmark demoQuiet (handlerFetch demoQuiet 0 demoState).state b).To.wall =
        b.To.wall + 3600 * 1000000000 ∧
      (demoQuiet.marshalMap (nextBookmark demoQuiet (handlerFetch demoQuiet 0 demoState).state b)
          = none →
        s'.trace = (handlerFetch demoQuiet 0 demoState).state.trace ++
          [.putItem demoState.bookmarkTable
            (nextBookmark demoQuiet (handlerFetch demoQuiet 0 demoState).state b)]) :=
  ⟨rfl, (empty_batch_still_commits demoQuiet 0 demoState _ rfl).2⟩


/-- C3: in every run of `Handler`, (1) if `compressAndUploadToS3` ends in
`log.Fatalf`, so does `Handler`, in the same state, and the trace holds no
`PutItem` beyond those it held before the run; (2) on a non-empty batch
`compressAndUploadToS3` does end in `log.Fatalf` when a record fails to marshal
(before any upload) and when the upload is answered with an error; (3) if the
run did add a `PutItem`, then the fetch returned a batch and either the batch
was empty and the `PutItem` is the only call after the fetch, or the batch was
written to a buffer, the upload of it was answered without error, and the
calls after the fetch are that upload followed by the `PutItem`. -/
theorem commit_only_after_archive (fuel : Nat) (s : State) :
    (∀ es s1 s2, handlerFetch S fuel s = .ok es s1 →
      compressAndUploadToS3 S es s1 = .fatal s2 →
        Handler S fuel s = .fatal s2 ∧ puts s2.trace = puts s.trace) ∧
    (∀ es s1, handlerFetch S fuel s = .ok es s1 → es ≠ [] →
      ((∃ r ∈ es, ∃ e, S.jsonMarshal r = .error e) →
        compressAndUploadToS3 S es s1 = .fatal s1) ∧
      (∀ buffer, writeRecords S es [] s1 = .ok buffer s1 →
        (∃ e, S.upload s1.trace (uploadInput S s1 buffer) = .error e) →
        compressAndUploadToS3 S es s1 = .fatal (uploaded S s1 buffer))) ∧
    (puts (Handler S fuel s).state.trace ≠ puts s.trace →
      ∃ es s1 c, handlerFetch S fuel s = .ok es s1 ∧
        ((es = [] ∧
            (Handler S fuel s).state.trace = s1.trace ++ [.putItem s.bookmarkTable c]) ∨
         (∃ buffer loc, es ≠ [] ∧ writeRecords S es [] s1 = .ok buffer s1 ∧
            S.upload s1.trace (uploadInput S s1 buffer) = .ok loc ∧
            (Handler S fuel s).state.trace =
              s1.trace ++ [.upload (uploadInput S s1 buffer), .putItem s.bookmarkTable c]))) := by
  refine ⟨?_, ?_, ?_⟩
  · intro es s1 s2 hF hA
    obtain ⟨_, b, _, reqs, pfx, hs1, _⟩ := handlerFetch_ok S hF
    refine ⟨by rw [Handler_eq, M.bind_apply, hF]; simp only [M.bind_apply, hA], ?_⟩
    obtain ⟨clk, ups, hs2, _⟩ := compressAndUploadToS3_frame S es s1
    rw [hA] at hs2
    simp only [Res.state] at hs2
    rw [hs2, hs1]
    simp [puts_append, puts_requests, puts_uploads, -List.map_cons]
  · intro es s1 hF hne
    obtain ⟨hc, b, _, reqs, pfx, hs1, _⟩ := handlerFetch_ok S hF
    have hc1 : s1.clients = true := by rw [hs1]; exact hc
    refine ⟨fun herr => compressAndUploadToS3_fatal S hne (writeRecords_error S [] s1 herr), ?_⟩
    intro buffer hw ⟨e, he⟩
    rw [compressAndUploadToS3_buffer S hne hw]
    simp [hc1, he]
  · intro hputs
    rw [Handler_eq, M.bind_apply] at hputs ⊢
    cases hF : handlerFetch S fuel s with
    | ok es s1 =>
      obtain ⟨hc, b, hb, reqs, pfx, hs1, _⟩ := handlerFetch_ok S hF
      have hb1 : s1.bm = some b := by rw [hs1]; exact hb
      have hc1 : s1.clients = true := by rw [hs1]; exact hc
      have ht1 : s1.bookmarkTable = s.bookmarkTable := by rw [hs1]
      have hp1 : puts s1.trace = puts s.trace := by
        rw [hs1]; simp [puts_append, puts_requests, -List.map_cons]
      rw [hF] at hputs
      simp only [M.bind_apply] at hputs ⊢
      by_cases hne : es = []
      · subst hne
        rw [compressAndUploadToS3_nil] at hputs ⊢
        simp only at hputs ⊢
        rw [handlerCommit_some S hb1] at hputs ⊢
        refine ⟨[], s1, nextBookmark S s1 b, rfl, Or.inl ⟨rfl, ?_⟩⟩
        cases hm : S.marshalMap (nextBookmark S s1 b) with
        | some err => rw [hm] at hputs; exact absurd hp1 hputs
        | none => simp [hc1, Res.state, ht1]
      · rcases writeRecords_cases S es [] s1 with ⟨_, hw⟩ | ⟨buffer, hw⟩
        · rw [compressAndUploadToS3_fatal S hne hw] at hputs
          exact absurd hp1 hputs
        · rw [compressAndUploadToS3_buffer S hne hw] at hputs ⊢
          simp only [hc1, if_true] at hputs ⊢
          have hpu : puts (uploaded S s1 buffer).trace = puts s.trace := by
            simp [uploaded, puts_append, puts, hp1]
          cases hu : S.upload s1.trace (uploadInput S s1 buffer) with
          | error e =>
            rw [hu] at hputs
            exact absurd hpu hputs
          | ok loc =>
            rw [hu] at hputs
            simp only at hputs ⊢
            have hbu : (uploaded S s1 buffer).bm = some b := by simpa [uploaded] using hb1
            rw [handlerCommit_some S hbu] at hputs ⊢
            refine ⟨es, s1, nextBookmark S (uploaded S s1 buffer) b, rfl,
              Or.inr ⟨buffer, loc, hne, hw, hu, ?_⟩⟩
            cases hm : S.marshalMap (nextBookmark S (uploaded S s1 buffer) b) with
            | some err => rw [hm] at hputs; exact absurd hpu hputs
            | none => simp [uploaded, hc1, Res.state, ht1]
    | fatal s1 =>
      obtain ⟨reqs, pfx, hst, _⟩ := handlerFetch_frame S fuel s
      rw [hF] at hst hputs
      simp only [Res.state] at hst hputs
      rw [hst] at hputs
      simp [puts_append, puts_requests] at hputs
    | panic s1 =>
      obtain ⟨reqs, pfx, hst, _⟩ := handlerFetch_frame S fuel s
      rw [hF] at hst hputs
      simp only [Res.state] at hst hputs
      rw [hst] at hputs
      simp [puts_append, puts_requests] at hputs
    | outOfFuel s1 =>
      obtain ⟨reqs, pfx, hst, _⟩ := handlerFetch_frame S fuel s
      rw [hF] at hst hputs
      simp only [Res.state] at hst hputs
      rw [hst] at hputs
      simp [puts_append, puts_requests] at hputs

/-- Witness for C3: with every upload refused the run is fatal after its one
upload and puts nothing into the table; a record that cannot be marshalled is
fatal before any upload; with uploads accepted the `PutItem` follows the
upload. -/
theorem commit_only_after_archive_witness :
    (Handler demoNoUpload 1 demoState = .fatal (Handler demoNoUpload 1 demoState).state ∧
      puts (Handler demoNoUpload 1 demoState).state.trace = puts demoState.trace) ∧
    (uploads (Handler demoNoUpload 1 demoState).state.trace).length = 1 ∧
    compressAndUploadToS3 demoNoUpload ["A", "B", "C"] (handlerFetch demoNoUpload 1 demoState).state =
      .fatal (uploaded demoNoUpload (handlerFetch demoNoUpload 1 demoState).state
        [65, 10, 66, 10, 67, 10]) ∧
    compressAndUploadToS3 demoBadRecord ["A", "B", "C"]
        (handlerFetch demoBadRecord 1 demoState).state =
      .fatal (handlerFetch demoBadRecord 1 demoState).state ∧
    ∃ es s1 c, handlerFetch demo 1 demoState = .ok es s1 ∧
      ((es = [] ∧
          (Handler demo 1 demoState).state.trace = s1.trace ++ [.putItem demoState.bookmarkTable c]) ∨
        (∃ buffer loc, es ≠ [] ∧ writeRecords demo es [] s1 = .ok buffer s1 ∧
          demo.upload s1.trace (uploadInput demo s1 buffer) = .ok loc ∧
          (Handler demo 1 demoState).state.trace =
            s1.trace ++ [.upload (uploadInput demo s1 buffer),
              .putItem demoState.bookmarkTable c])) :=
  ⟨(commit_only_after_archive demoNoUpload 1 demoState).1 ["A", "B", "C"]
      (handlerFetch demoNoUpload 1 demoState).state (Handler demoNoUpload 1 demoState).state
      rfl rfl,
    by decide,
    ((commit_only_after_archive demoNoUpload 1 demoState).2.1 ["A", "B", "C"]
      (handlerFetch demoNoUpload 1 demoState).state rfl (by simp)).2
      [65, 10, 66, 10, 67, 10] rfl ⟨"AccessDenied", rfl⟩,
    ((commit_only_after_archive demoBadRecord 1 demoState).2.1 ["A", "B", "C"]
      (handlerFetch demoBadRecord 1 demoState).state rfl (by simp)).1
      ⟨"B", by simp, "json: unsupported value", rfl⟩,
    (commit_only_after_archive demo 1 demoState).2.2 (by decide)⟩


/-- C6: for a non-empty batch whose records all marshal (record `r` to the
bytes `m r`), `compressAndUploadToS3` (in an initialised process) issues one
upload whose body is the compressor applied to
`m r_1 ++ "\n" ++ ... ++ m r_n ++ "\n"`. Hence, for any decompressor that
inverts the compressor and given that no `m r` contains a newline byte, the
decompressed body read as newline-terminated records is exactly
`m r_1, ..., m r_n`, in the order of the batch; split at every newline it is
those records followed by the empty remainder after the last newline. -/
theorem archive_is_newline_delimited (m : E → Bytes) (logs : List E) (s : State)
    (hne : logs ≠ []) (hm : ∀ r ∈ logs, S.jsonMarshal r = .ok (m r))
    (hc : s.clients = true) :
    ∃ input : PutObjectInput,
      (compressAndUploadToS3 S logs s).state.trace = s.trace ++ [.upload input] ∧
      input.Body = S.gzip ((logs.map fun r => m r ++ [10]).flatten) ∧
      ∀ gunzip : Bytes → Bytes, (∀ x, gunzip (S.gzip x) = x) →
        (∀ r ∈ logs, (10 : Byte) ∉ m r) →
        records (gunzip input.Body) = logs.map m ∧
        (gunzip input.Body).splitOn 10 = logs.map m ++ [[]] := by
  have hw := writeRecords_ok S m logs [] s hm
  simp only [List.nil_append] at hw
  rw [compressAndUploadToS3_buffer S hne hw]
  simp only [hc, if_true]
  refine ⟨uploadInput S s ((logs.map fun r => m r ++ [10]).flatten), ?_, rfl, ?_⟩
  · generalize S.upload _ _ = r
    cases r <;> simp [Res.state, uploaded]
  · intro gunzip hinv hnl
    have hbody : gunzip (uploadInput S s ((logs.map fun r => m r ++ [10]).flatten)).Body =
        ((logs.map m).map fun l => l ++ [10]).flatten := by
      simp only [uploadInput, compress, hinv, List.map_map]
      rfl
    have hnl' : ∀ l ∈ logs.map m, (10 : Byte) ∉ l := by
      intro l hl
      obtain ⟨r, hr, rfl⟩ := List.mem_map.1 hl
      exact hnl r hr
    rw [hbody]
    exact ⟨records_lines _ hnl', splitOn_lines _ hnl'⟩

/-- Witness for C6: the batch A, B, C, each record marshalled to its one byte,
with the identity as compressor and decompressor. -/
theorem archive_is_newline_delimited_witness :
    ∃ input : PutObjectInput,
      (compressAndUploadToS3 demo ["A", "B", "C"] demoState).state.trace =
        demoState.trace ++ [.upload input] ∧
      input.Body = demo.gzip ((["A", "B", "C"].map fun r => [Fin.ofNat r.front.toNat] ++ [10]).flatten) ∧
      records input.Body = [[65], [66], [67]] ∧
      input.Body.splitOn 10 = [[65], [66], [67], []] := by
  obtain ⟨input, h1, h2, h3⟩ := archive_is_newline_delimited demo
    (fun r => [Fin.ofNat r.front.toNat]) ["A", "B", "C"] demoState (by simp)
    (by intro r hr; simp at hr; rcases hr with rfl | rfl | rfl <;> rfl) rfl
  have h4 := h3 (fun x => x) (fun x => rfl)
    (by intro r hr; simp at hr; rcases hr with rfl | rfl | rfl <;> decide)
  exact ⟨input, h1, h2, h4.1, h4.2⟩


/-- C7, counterexample: with the checkpoint from 10:00 to 11:00 in the table,
`init` loads it and the cycle that follows queries the window from 10:00 to
11:00, the checkpoint's own, not the window from 11:00 to 12:00. -/
theorem query_window_not_after_checkpoint :
    ∃ s1, init demo (initialState demo) = .ok () s1 ∧ s1.bm = some demoCheckpoint ∧
      getSearchPhrase demo s1 =
        .ok "created:2022-03-01 10:00:00 +0000 UTC..2022-03-01 11:00:00 +0000 UTC" s1 ∧
      (requests (Handler demo 1 s1).state.trace).map (·.Phrase) =
        ["created:2022-03-01 10:00:00 +0000 UTC..2022-03-01 11:00:00 +0000 UTC",
         "created:2022-03-01 10:00:00 +0000 UTC..2022-03-01 11:00:00 +0000 UTC"] ∧
      "created:" ++ demoCheckpoint.To.String ++ ".." ++ (demoCheckpoint.To.Add (1 * Hour)).String =
        "created:2022-03-01 11:00:00 +0000 UTC..2022-03-01 12:00:00 +0000 UTC" ∧
      "created:2022-03-01 10:00:00 +0000 UTC..2022-03-01 11:00:00 +0000 UTC" ≠
        "created:" ++ demoCheckpoint.To.String ++ ".." ++ (demoCheckpoint.To.Add (1 * Hour)).String :=
  ⟨_, rfl, rfl, rfl, by decide, by decide, by decide⟩

/-- C7, amended: when the table holds a checkpoint `p` for the day, `init`
loads it whatever the clock shows, the phrase `getSearchPhrase` then builds
covers the window recorded in `p` itself, from `p.From` to `p.To`, every
request of the `Handler` run that follows carries that phrase, and any
bookmark the run puts into the table goes from `p.To` to `p.To` plus one
hour. -/
theorem query_window_is_checkpoint (s0 : State) (p : bookmark) (item : Item) (rest : List Item)
    (hcfg : S.loadDefaultConfig = none) (htz : timeZoneOk S)
    (hq : S.query s0.trace (initQuery S s0) = .ok (item :: rest))
    (hitem : item.decoded = .ok p) :
    ∃ s1, init S s0 = .ok () s1 ∧ s1.bm = some p ∧
      getSearchPhrase S s1 = .ok (windowPhrase S p) s1 ∧
      ∀ fuel, ∃ ev : List Event, (Handler S fuel s1).state.trace = s1.trace ++ ev ∧
        (∀ o ∈ requests ev, o.Phrase = windowPhrase S p) ∧
        ∀ c ∈ puts ev, c.From = p.To ∧ c.To = p.To.Add (1 * Hour) := by
  refine ⟨_, init_found S s0 p item rest hcfg htz hq hitem, rfl, getSearchPhrase_some S rfl, ?_⟩
  intro fuel
  obtain ⟨ev, hev, h⟩ := Handler_events S fuel
    { s0 with timeLocal := initLocal S s0, clients := true, bm := some p,
              trace := s0.trace ++ [.query (initQuery S s0)], clock := s0.clock + 1 }
  exact ⟨ev, hev, h p rfl⟩

/-- Witness for C7 as amended: the checkpoint from 10:00 to 11:00 is loaded at
11:30 and the window queried is 10:00 to 11:00. -/
theorem query_window_is_checkpoint_witness :
    windowPhrase demo demoCheckpoint =
      "created:2022-03-01 10:00:00 +0000 UTC..2022-03-01 11:00:00 +0000 UTC" ∧
    ∃ s1, init demo (initialState demo) = .ok () s1 ∧ s1.bm = some demoCheckpoint ∧
      getSearchPhrase demo s1 = .ok (windowPhrase demo demoCheckpoint) s1 ∧
      ∀ fuel, ∃ ev : List Event, (Handler demo fuel s1).state.trace = s1.trace ++ ev ∧
        (∀ o ∈ requests ev, o.Phrase = windowPhrase demo demoCheckpoint) ∧
        ∀ c ∈ puts ev, c.From = demoCheckpoint.To ∧ c.To = demoCheckpoint.To.Add (1 * Hour) :=
  ⟨by decide,
    query_window_is_checkpoint demo (initialState demo) demoCheckpoint ⟨.ok demoCheckpoint⟩ []
      rfl (Or.inl rfl) rfl rfl⟩


/-- C8: when the table holds no checkpoint for the day, `init` sets the
bookmark in memory to the window from `now` to `now` plus one hour, where `now`
is the time `init` reads once `getBookmark` has returned (the second clock
reading of the process); the phrase `getSearchPhrase` then builds covers
exactly that window, and so does every request of the `Handler` run that
follows. -/
theorem cold_start_window (s0 : State)
    (hcfg : S.loadDefaultConfig = none) (htz : timeZoneOk S)
    (hq : S.query s0.trace (initQuery S s0) = .ok []) :
    ∃ s1 b, init S s0 = .ok () s1 ∧ s1.bm = some b ∧
      b.From = startupTime S s0 ∧ b.To = (startupTime S s0).Add (1 * Hour) ∧
      b.From.wall = (S.now (s0.clock + 1)).1 ∧
      b.To.wall = (S.now (s0.clock + 1)).1 + 3600 * 1000000000 ∧
      getSearchPhrase S s1 = .ok (windowPhrase S b) s1 ∧
      ∀ fuel, ∃ ev : List Event, (Handler S fuel s1).state.trace = s1.trace ++ ev ∧
        ∀ o ∈ requests ev, o.Phrase = windowPhrase S b := by
  refine ⟨_, coldBookmark S s0, init_cold S s0 hcfg htz hq, rfl, rfl, rfl, rfl, ?_,
    getSearchPhrase_some S rfl, ?_⟩
  · simp [coldBookmark, startupTime, Time.Add, Hour]
  · intro fuel
    obtain ⟨ev, hev, h⟩ := Handler_events S fuel
      { s0 with timeLocal := initLocal S s0, clients := true, bm := some (coldBookmark S s0),
                trace := s0.trace ++ [.query (initQuery S s0)], clock := s0.clock + 4 }
    exact ⟨ev, hev, (h _ rfl).1⟩

/-- Witness for C8: a process started at 11:30:00 with an empty table reads
`now` at 11:30:01 and exports the window from 11:30:01 to 12:30:01. -/
theorem cold_start_window_witness :
    startupTime demoCold (initialState demoCold) =
      ⟨tenOClock + 5401 * 1000000000, some 1000000000, UTC⟩ ∧
    windowPhrase demoCold (coldBookmark demoCold (initialState demoCold)) =
      "created:2022-03-01 11:30:01 +0000 UTC m=+1.000000000..2022-03-01 12:30:01 +0000 UTC m=+3601.000000000" ∧
    ∃ s1 b, init demoCold (initialState demoCold) = .ok () s1 ∧ s1.bm = some b ∧
      b.From = startupTime demoCold (initialState demoCold) ∧
      b.To = (startupTime demoCold (initialState demoCold)).Add (1 * Hour) ∧
      b.From.wall = (demoCold.now ((initialState demoCold).clock + 1)).1 ∧
      b.To.wall = (demoCold.now ((initialState demoCold).clock + 1)).1 + 3600 * 1000000000 ∧
      getSearchPhrase demoCold s1 = .ok (windowPhrase demoCold b) s1 ∧
      ∀ fuel, ∃ ev : List Event, (Handler demoCold fuel s1).state.trace = s1.trace ++ ev ∧
        ∀ o ∈ requests ev, o.Phrase = windowPhrase demoCold b :=
  ⟨by decide, by decide,
    cold_start_window demoCold (initialState demoCold) rfl (Or.inl rfl) rfl⟩


/-- Two invocations in one process: a process whose `init` loaded the
checkpoint from 10:00 to 11:00 serves two invocations of `Handler`, both ending
normally. The first puts the bookmark from 11:00 to 12:00 into the table and so
does the second, since the bookmark in memory is still the one `init` loaded:
the second bookmark starts at 11:00, not at 12:00 where the first one ends. -/
theorem warm_invocation_repeats_window :
    init demo (initialState demo) = .ok () demoStarted ∧
    demoStarted.bm = some demoCheckpoint ∧
    Handler demo 1 demoStarted = .ok () demoAfterFirst ∧
    Handler demo 1 demoAfterFirst = .ok () demoAfterSecond ∧
    (puts demoAfterFirst.trace).map (fun c => (c.From.wall, c.To.wall)) =
      [(1646132400000000000, 1646136000000000000)] ∧
    (puts demoAfterSecond.trace).map (fun c => (c.From.wall, c.To.wall)) =
      [(1646132400000000000, 1646136000000000000),
       (1646132400000000000, 1646136000000000000)] ∧
    ∃ c1 c2, puts demoAfterSecond.trace = [c1, c2] ∧ c1.To ≠ c2.From :=
  ⟨rfl, rfl, rfl, rfl, by decide, by decide,
    (puts demoAfterSecond.trace).getD 0 demoCheckpoint,
    (puts demoAfterSecond.trace).getD 1 demoCheckpoint,
    by decide, by decide⟩


/-- C9, counterexample: two different write times within one second, a tenth
and six tenths of a second past 10:00:00, give the same key; and a process whose
two invocations of `Handler` upload within the same second (the clock readings
taken for the two keys are three tenths of a second apart) sends both uploads
to the same key. -/
theorem objectKey_collides_within_second :
    (⟨tenOClock + 100000000, none, UTC⟩ : Time) ≠ ⟨tenOClock + 600000000, none, UTC⟩ ∧
    objectKey "Github/Audit" ⟨tenOClock + 100000000, none, UTC⟩ =
      "Github/Audit/2022/3/1/10/2022-03-01T10:00:00Z.json.gz" ∧
    objectKey "Github/Audit" ⟨tenOClock + 600000000, none, UTC⟩ =
      "Github/Audit/2022/3/1/10/2022-03-01T10:00:00Z.json.gz" ∧
    (demoFast.now 1).1 ≠ (demoFast.now 4).1 ∧
    (uploads demoFastAfterSecond.trace).map (·.Key) =
      ["Github/Audit/2022/3/1/11/2022-03-01T11:30:00Z.json.gz",
       "Github/Audit/2022/3/1/11/2022-03-01T11:30:00Z.json.gz"] := by
  decide

/-- C9, amended: the key is built from the bucket prefix and the write time
alone, and of the write time it keeps the calendar second only: for a fixed
prefix and location, two write times give the same key exactly when they fall
in the same second. Write times in different seconds give different keys. -/
theorem objectKey_eq_iff_same_second (pfx : String) (loc : Location) (w1 w2 : Int)
    (m1 m2 : Option Int) :
    objectKey pfx ⟨w1, m1, loc⟩ = objectKey pfx ⟨w2, m2, loc⟩ ↔
      w1 / 1000000000 = w2 / 1000000000 := by
  constructor
  · intro h
    have hk : objectKeyChars pfx ⟨w1, m1, loc⟩ = objectKeyChars pfx ⟨w2, m2, loc⟩ :=
      congrArg String.data h
    simp only [objectKeyChars, List.append_assoc, List.singleton_append] at hk
    have hk' : (pfx.data ++ '/' :: (appendInt (Time.Year ⟨w1, m1, loc⟩) 0 ++ '/' ::
          (appendInt (Time.Month ⟨w1, m1, loc⟩) 0 ++ '/' ::
            (appendInt (Time.Day ⟨w1, m1, loc⟩) 0 ++ '/' ::
              appendInt (Time.Hour ⟨w1, m1, loc⟩) 0)))) ++
          '/' :: (rfc3339Chars ⟨w1, m1, loc⟩ ++ ".json.gz".data) =
        (pfx.data ++ '/' :: (appendInt (Time.Year ⟨w2, m2, loc⟩) 0 ++ '/' ::
          (appendInt (Time.Month ⟨w2, m2, loc⟩) 0 ++ '/' ::
            (appendInt (Time.Day ⟨w2, m2, loc⟩) 0 ++ '/' ::
              appendInt (Time.Hour ⟨w2, m2, loc⟩) 0)))) ++
          '/' :: (rfc3339Chars ⟨w2, m2, loc⟩ ++ ".json.gz".data) := by
      simpa [List.append_assoc] using hk
    have hlast := last_segment '/' _ _ _ _ (suffix_no_slash _) (suffix_no_slash _) hk'
    have hrfc : rfc3339Chars ⟨w1, m1, loc⟩ = rfc3339Chars ⟨w2, m2, loc⟩ :=
      List.append_cancel_right hlast
    have hls := localSec_of_fields
      (rfc3339Chars_inj (t := ⟨w1, m1, loc⟩) (u := ⟨w2, m2, loc⟩) rfl hrfc)
    simp only [Time.localSec, Time.Unix] at hls
    omega
  · intro h
    have hls : Time.localSec ⟨w1, m1, loc⟩ = Time.localSec ⟨w2, m2, loc⟩ := by
      simp [Time.localSec, Time.Unix, h]
    simp [objectKey, objectKeyChars, rfc3339Chars, formatDate, formatClock, Time.Year,
      Time.Month, Time.Day, Time.Hour, Time.Minute, Time.Second, hls]

end Claims

end AuditLog

